import Mathlib

/-!
Verification development for the `quantum-sim-rust` quantum-circuit
simulator.  Each Rust source function used by the claims is embedded as an
executable Lean definition; machine integers (`u32`, `i32`, `usize`) are
modelled as `ℕ`/`ℤ` (theorems that quantify over inputs carry explicit bounds
under which the machine computation cannot overflow), `f64` scalars as exact
rationals `ℚ`, and panics (`unwrap`, `assert!`, arithmetic overflow, slice
out of range) as `Option.none`.
-/

namespace QSimRust

/-! ## `src/util.rs` -/

/-- Source `util.rs` `mod_power(a, x, n)`: starts from `res = 1` and performs
`x` iterations of `res = (res * a) % n`.  The `u32` arithmetic is modelled on
`ℕ`; it agrees with the source whenever `res * a` stays below `2^32`, i.e.
whenever `a * max 1 (n-1) < 2^32`. -/
def mod_power (a x n : ℕ) : ℕ :=
  (List.range x).foldl (fun res _ => (res * a) % n) 1

/-- Source `util.rs` `min_bit_size(n)` = `((n + 1) as f64).log2().ceil()`.
For `u32` inputs the `f64` computation is exact (`n + 1 ≤ 2^32` is exactly
representable and `log2` is monotone with enough precision there), so it is
the ceiling of the base-2 logarithm, `Nat.clog 2 (n + 1)`. -/
def min_bit_size (n : ℕ) : ℕ := Nat.clog 2 (n + 1)

/-- Fuel-driven helper for the recursive `gcd` of `algorithms.rs`; the fuel
only makes the recursion structural (hence kernel-computable) and is chosen
large enough to never run out (see `gcdR_rec`). -/
def gcdAux : ℕ → ℕ → ℕ → ℕ
  | 0, a, _ => a
  | fuel + 1, a, b => if b = 0 then a else gcdAux fuel b (a % b)

/-- Source `algorithms.rs` `gcd(a, b) = if b == 0 { a } else { gcd(b, a % b) }`
(instantiated at unsigned integers, `T::default() = 0`). -/
def gcdR (a b : ℕ) : ℕ := gcdAux (b + 1) a b

theorem gcdAux_fuel_irrelevant (b : ℕ) : ∀ f₁ f₂ a, b < f₁ → b < f₂ →
    gcdAux f₁ a b = gcdAux f₂ a b := by
  induction b using Nat.strong_induction_on with
  | _ b ih =>
    intro f₁ f₂ a h₁ h₂
    match f₁, f₂ with
    | g₁ + 1, g₂ + 1 =>
      by_cases hb : b = 0
      · subst hb; simp [gcdAux]
      · simp only [gcdAux, if_neg hb]
        have hlt : a % b < b := Nat.mod_lt _ (Nat.pos_of_ne_zero hb)
        exact ih _ hlt _ _ _ (lt_of_lt_of_le hlt (Nat.lt_succ_iff.mp h₁))
          (lt_of_lt_of_le hlt (Nat.lt_succ_iff.mp h₂))

/-- The embedded `gcdR` satisfies exactly the recurrence that defines the
source's `gcd`. -/
theorem gcdR_rec (a b : ℕ) : gcdR a b = if b = 0 then a else gcdR b (a % b) := by
  by_cases hb : b = 0
  · simp [gcdR, gcdAux, hb]
  · simp only [gcdR, gcdAux, if_neg hb]
    exact gcdAux_fuel_irrelevant _ _ _ _ (Nat.mod_lt _ (Nat.pos_of_ne_zero hb))
      (Nat.lt_succ_self _)

/-! ## `src/algorithms.rs` : `find_factors` and `shors` -/

/-- Source `algorithms.rs` `find_factors(r, a, n)`:
reject odd `r`; reject when `mod_power(a, r, n) == n - 1` (note: the exponent
in the source is `r`, not `r / 2`); compute `g = gcd(mod_power(a, r/2, n) + 1, n)`
and reject `g ∈ {1, n}`; otherwise return `(g, n / g)`. -/
def find_factors (r a n : ℕ) : Option (ℕ × ℕ) :=
  if r % 2 ≠ 0 then none
  else if mod_power a r n = n - 1 then none
  else
    let g := gcdR (mod_power a (r / 2) n + 1) n
    if g = 1 ∨ g = n then none
    else some (g, n / g)

/-- C4, counterexample.  The claim reads the second rejection test as
`a^(r/2) mod n = n - 1`, but the source tests `mod_power(a, r, n) == n - 1`
(exponent `r`).  At `r = 2, a = 3, n = 10` we have `3^(2/2) mod 10 = 3 ≠ 9`,
`g = gcd(3 + 1, 10) = 2 ∉ {1, 10}`, so the claim requires the result
`(2, 5)`; the source computes `3^2 mod 10 = 9 = n - 1` and rejects. -/
theorem find_factors_claim_false_at_2_3_10 :
    find_factors 2 3 10 = none ∧
    2 % 2 = 0 ∧
    mod_power 3 (2 / 2) 10 ≠ 10 - 1 ∧
    gcdR (mod_power 3 (2 / 2) 10 + 1) 10 ≠ 1 ∧
    gcdR (mod_power 3 (2 / 2) 10 + 1) 10 ≠ 10 := by
  decide

set_option maxRecDepth 8000

/-- C4, amended.  `find_factors(r, a, n)` rejects (returns `None`) exactly
when `r` is odd, or `a^r mod n = n - 1` (the source uses exponent `r` here,
not `r / 2`), or `g = gcd(a^(r/2) mod n + 1, n)` is `1` or `n`; otherwise it
returns `(g, n / g)`.  Concrete instances: `find_factors(4, 2, 15) = (5, 3)`,
`find_factors(3, 2, 15)` rejects, `find_factors(78, 24, 371) = (7, 53)`.
The hypotheses delimit the range where the source's `u32` arithmetic cannot
overflow so that the `ℕ` model is exact. -/
theorem find_factors_spec (r a n : ℕ) (hr : 0 < r) (ha : 0 < a) (hn : 2 ≤ n)
    (hof : a * (n - 1) < 2 ^ 32) :
    (find_factors r a n = none ↔
      r % 2 = 1 ∨ mod_power a r n = n - 1 ∨
      gcdR (mod_power a (r / 2) n + 1) n = 1 ∨
      gcdR (mod_power a (r / 2) n + 1) n = n) ∧
    (r % 2 = 0 → mod_power a r n ≠ n - 1 →
      gcdR (mod_power a (r / 2) n + 1) n ≠ 1 →
      gcdR (mod_power a (r / 2) n + 1) n ≠ n →
      find_factors r a n =
        some (gcdR (mod_power a (r / 2) n + 1) n,
              n / gcdR (mod_power a (r / 2) n + 1) n)) ∧
    find_factors 4 2 15 = some (5, 3) ∧
    find_factors 3 2 15 = none ∧
    find_factors 78 24 371 = some (7, 53) := by
  refine ⟨?_, ?_, by decide, by decide, by decide⟩
  · unfold find_factors
    rcases Nat.mod_two_eq_zero_or_one r with h2 | h2 <;>
      simp [h2] <;> by_cases hm : mod_power a r n = n - 1 <;>
      simp [hm] <;> by_cases h1 : gcdR (mod_power a (r / 2) n + 1) n = 1 <;>
      by_cases hg : gcdR (mod_power a (r / 2) n + 1) n = n <;> simp [h1, hg]
  · intro h2 hm h1 hg
    unfold find_factors
    simp [h2, hm, h1, hg]

/-- C4, witness for `find_factors_spec` at `(r, a, n) = (4, 2, 15)`. -/
theorem find_factors_spec_witness :
    (0 < 4 ∧ 0 < 2 ∧ 2 ≤ 15 ∧ 2 * (15 - 1) < 2 ^ 32) ∧
    ((find_factors 4 2 15 = none ↔
      4 % 2 = 1 ∨ mod_power 2 4 15 = 15 - 1 ∨
      gcdR (mod_power 2 (4 / 2) 15 + 1) 15 = 1 ∨
      gcdR (mod_power 2 (4 / 2) 15 + 1) 15 = 15) ∧
    (4 % 2 = 0 → mod_power 2 4 15 ≠ 15 - 1 →
      gcdR (mod_power 2 (4 / 2) 15 + 1) 15 ≠ 1 →
      gcdR (mod_power 2 (4 / 2) 15 + 1) 15 ≠ 15 →
      find_factors 4 2 15 =
        some (gcdR (mod_power 2 (4 / 2) 15 + 1) 15,
              15 / gcdR (mod_power 2 (4 / 2) 15 + 1) 15)) ∧
    find_factors 4 2 15 = some (5, 3) ∧
    find_factors 3 2 15 = none ∧
    find_factors 78 24 371 = some (7, 53)) :=
  ⟨by decide, find_factors_spec 4 2 15 (by decide) (by decide) (by decide)
    (by decide)⟩

/-- Source `algorithms.rs` `shors(n)`, for one outcome of its internal random
choices.  The body of the source's `for i in 0..10` loop returns on every
path (`return Some((gcd, n/gcd))`, `return None; // TODO: SHOULD CONTINUE THE
LOOP`, `return res`), so a run is fully determined by the first randomly
drawn base `a`; the quantum period-finding subroutine `find_period` (whose
value depends on further random measurement draws) is abstracted as the
argument `fp`. -/
def shors (a : ℕ) (fp : ℕ → ℕ → ℕ) (n : ℕ) : Option (ℕ × ℕ) :=
  if gcdR a n ≠ 1 then some (gcdR a n, n / gcdR a n)
  else
    let r := fp a n
    let res := find_factors r a n
    if res = none then none
    else res

/-- C5: the claim says that on a rejected candidate period the driver redraws
a fresh base `a` and retries, and that `shors(15)` always returns a factor
pair.  The source instead executes `return None; // TODO: SHOULD CONTINUE THE
LOOP`: when the first drawn base is `a = 14` (coprime to `15`) and the period
subroutine returns the true period `r = 2` of `14 mod 15`, `find_factors`
rejects (`gcd(14 + 1, 15) = 15`) and `shors` gives up with `None`, which also
makes the source's own `test_shors` (`shors(n).unwrap()`) panic on that
random outcome. -/
theorem shors_gives_up_on_rejection :
    shors 14 (fun _ _ => 2) 15 = none ∧
    gcdR 14 15 = 1 ∧
    mod_power 14 2 15 = 1 ∧
    find_factors 2 14 15 = none := by
  decide

/-! ## `src/matrix/complex.rs` : complex scalars

The source's `C { a: f64, b: f64 }` is modelled with exact rational
components.  The arithmetic (`Add`, `Mul`, `conjugate`) is translated from
`complex.rs` verbatim. -/

/-- Source struct `C { a, b }` representing `a + b·i`; `f64` components are
modelled as `ℚ`. -/
@[ext]
structure Cpx where
  a : ℚ
  b : ℚ
  deriving DecidableEq

instance : Zero Cpx := ⟨⟨0, 0⟩⟩

instance : One Cpx := ⟨⟨1, 0⟩⟩

/-- Source `impl Add for C`: componentwise. -/
instance : Add Cpx := ⟨fun x y => ⟨x.a + y.a, x.b + y.b⟩⟩

/-- Source `impl Mul for C`:
`a = x.a * y.a + x.b * y.b * -1.0`, `b = x.a * y.b + x.b * y.a`. -/
instance : Mul Cpx := ⟨fun x y => ⟨x.a * y.a + x.b * y.b * (-1), x.a * y.b + x.b * y.a⟩⟩

/-- Source `C::conjugate`: `(a, b * -1.0)`. -/
def Cpx.conjugate (x : Cpx) : Cpx := ⟨x.a, x.b * (-1)⟩

/-- Square of the source's `C::modulus` (`modulus = (a² + b²).sqrt()`); the
quantum layer only uses `modulus².` -/
def Cpx.modSq (x : Cpx) : ℚ := x.a * x.a + x.b * x.b

theorem Cpx.zero_def : (0 : Cpx) = ⟨0, 0⟩ := rfl

theorem Cpx.one_def : (1 : Cpx) = ⟨1, 0⟩ := rfl

theorem Cpx.add_def (x y : Cpx) : x + y = ⟨x.a + y.a, x.b + y.b⟩ := rfl

theorem Cpx.mul_def (x y : Cpx) :
    x * y = ⟨x.a * y.a + x.b * y.b * (-1), x.a * y.b + x.b * y.a⟩ := rfl

instance : AddCommMonoid Cpx where
  add_assoc x y z := by ext <;> simp [Cpx.add_def] <;> ring
  zero_add x := by ext <;> simp [Cpx.add_def] <;> rfl
  add_zero x := by ext <;> simp [Cpx.add_def] <;> rfl
  add_comm x y := by ext <;> simp [Cpx.add_def] <;> ring
  nsmul := nsmulRec

/-- Source `util.rs` `f64_equal(a, b) = (a - b).abs() < 0.000000001`, the
tolerance helper. -/
def f64_equal (x y : ℚ) : Bool := |x - y| < 1 / 1000000000

/-- Modelled from the spec: `src/matrix/complex.rs` (the complex type the
matrix kernel imports as `crate::matrix::complex::C`) is not present under
`src/`; per the spec, equality of complex scalars used by the matrix
predicates is near-equality with tolerance `1e-9` on each component (the
constant of `util.rs` `f64_equal`).  The repository's own executor test
(`test_tensor_hadamar_and_apply`, which asserts `(H⊗H)|00⟩ = [0.5, …]`
although `(1/√2)² ≠ 0.5` in `f64`) confirms that this `PartialEq` is
tolerance-based rather than bitwise. -/
def cEq (x y : Cpx) : Bool := f64_equal x.a y.a && f64_equal x.b y.b

/-! ## `src/matrix/matrix.rs` : the dense matrix kernel

`Matrix { data: Vec<Vec<C>> }` (row-major, every row of equal length) is
modelled by its two dimensions together with its entry function; `entry i j`
models `data[i][j]` for `i < rows`, `j < cols` and is irrelevant outside
those bounds. -/

/-- Source `Matrix`: `rows/cols` model `data.len()` and `data[0].len()`,
`entry` models `data[i][j]`. -/
structure Mat where
  rows : ℕ
  cols : ℕ
  entry : ℕ → ℕ → Cpx

/-- Source `Matrix::zero(rows, cols)`. -/
def Mat.zero (r c : ℕ) : Mat := ⟨r, c, fun _ _ => 0⟩

/-- Source `Matrix::zero_sq(size)`. -/
def Mat.zero_sq (n : ℕ) : Mat := Mat.zero n n

/-- Source `Matrix::set(row, col, value)`: a copy of the matrix with the one
entry replaced. -/
def Mat.set (m : Mat) (r c : ℕ) (v : Cpx) : Mat :=
  ⟨m.rows, m.cols, fun i j => if i = r ∧ j = c then v else m.entry i j⟩

/-- Source `Matrix::identity(size)`. -/
def Mat.identity (n : ℕ) : Mat := ⟨n, n, fun i j => if i = j then 1 else 0⟩

/-- Source `Matrix::transpose`. -/
def Mat.transpose (m : Mat) : Mat := ⟨m.cols, m.rows, fun i j => m.entry j i⟩

/-- Source `Matrix::conjugate`: entrywise complex conjugation. -/
def Mat.conjugate (m : Mat) : Mat := ⟨m.rows, m.cols, fun i j => (m.entry i j).conjugate⟩

/-- Source `Matrix::adjoint = conjugate().transpose()`. -/
def Mat.adjoint (m : Mat) : Mat := m.conjugate.transpose

/-- Source `Matrix::multiply` (the classical triple loop; the inner loop over
`k` accumulates `data[i][j] = data[i][j] + self[i][k] * other[k][j]` starting
from `0`).  The source `assert!`s `self.data[0].len() == other.data.len()`;
callers below check that shape condition themselves, mirroring where the
source would panic. -/
def Mat.multiply (m other : Mat) : Mat :=
  ⟨m.rows, other.cols, fun i j =>
    (List.range m.cols).foldl (fun acc k => acc + m.entry i k * other.entry k j) 0⟩

/-- Source `Matrix::tensor` (Kronecker product):
`data[i][j] = self[i / rB][j / cB] * other[i % rB][j % cB]`. -/
def Mat.tensor (m other : Mat) : Mat :=
  ⟨m.rows * other.rows, m.cols * other.cols, fun i j =>
    m.entry (i / other.rows) (j / other.cols) *
      other.entry (i % other.rows) (j % other.cols)⟩

/-- Source `Matrix::is_vector`: `data[0].len() == 1`. -/
def Mat.is_vector (m : Mat) : Bool := m.cols = 1

/-- The derived `PartialEq` of the source `Matrix` (`Vec<Vec<C>>` equality):
equal dimensions and entrywise equality of the scalars, where scalar
equality is the tolerance `PartialEq` `cEq` of `matrix/complex.rs`. -/
def matEq (x y : Mat) : Bool :=
  x.rows == y.rows && x.cols == y.cols &&
    (List.range x.rows).all fun i =>
      (List.range x.cols).all fun j => cEq (x.entry i j) (y.entry i j)

/-- Source `Matrix::is_unitary`:
`self.clone() * self.adjoint() == Matrix::identity(self.data.len())`. -/
def Mat.is_unitary (m : Mat) : Bool :=
  matEq (m.multiply m.adjoint) (Mat.identity m.rows)

/-- Source `Matrix::is_hermitian`: `self.clone() == self.adjoint()`. -/
def Mat.is_hermitian (m : Mat) : Bool := matEq m m.adjoint

/-- Source `matrix.rs` `unitary_modular(a, n)`: with
`nbits = min_bit_size(n)`, `mbits = 2·nbits`, `q = nbits + mbits`, starts
from the zero `2^q × 2^q` matrix and, for each `i ∈ [0, 2^mbits)`, sets the
entry at row `i·2^nbits + mod_power(a, i, n)`, column `i·2^nbits` to `1`.
The `ℕ` model is exact only while the source's `u32` arithmetic does not
overflow, i.e. for `n ≤ 1023` (`q ≤ 30`): at `n = 1024`, `q = 33` and the
source's `2u32.pow(33)` panics (debug) or wraps (release, followed by an
index panic in the first `set`) instead of producing this matrix. -/
def unitary_modular (a n : ℕ) : Mat :=
  let nbit_size := min_bit_size n
  let mbit_size := nbit_size * 2
  let qbit_size := nbit_size + mbit_size
  let m_size := 2 ^ qbit_size
  let nrep := 2 ^ nbit_size
  let mrep := 2 ^ mbit_size
  (List.range mrep).foldl
    (fun mat i => mat.set (i * nrep + mod_power a i n) (i * nrep) 1)
    (Mat.zero_sq m_size)

theorem cEq_iff (x y : Cpx) :
    cEq x y = true ↔ |x.a - y.a| < 1 / 1000000000 ∧ |x.b - y.b| < 1 / 1000000000 := by
  simp [cEq, f64_equal]

theorem matEq_iff (x y : Mat) (hr : x.rows = y.rows) (hc : x.cols = y.cols) :
    matEq x y = true ↔
      ∀ i < x.rows, ∀ j < x.cols, cEq (x.entry i j) (y.entry i j) = true := by
  simp [matEq, hr, hc, List.all_eq_true, List.mem_range]

/-- C7: `is_unitary(A)` holds exactly when `A · A†` equals the identity
entrywise up to the tolerance `1e-9` on real and imaginary components (the
tolerance `PartialEq` of the complex scalars), not under strict equality. -/
theorem is_unitary_iff_tolerance (A : Mat) (hsq : A.cols = A.rows) :
    A.is_unitary = true ↔
      ∀ i < A.rows, ∀ j < A.rows,
        |((A.multiply A.adjoint).entry i j).a - (if i = j then 1 else 0)| <
            1 / 1000000000 ∧
        |((A.multiply A.adjoint).entry i j).b - 0| < 1 / 1000000000 := by
  rw [Mat.is_unitary, matEq_iff (A.multiply A.adjoint) (Mat.identity A.rows) rfl rfl]
  show (∀ i < A.rows, ∀ j < A.rows, _) ↔ _
  refine forall₂_congr fun i _ => forall₂_congr fun j _ => ?_
  rw [cEq_iff]
  have h1 : ((Mat.identity A.rows).entry i j).a = if i = j then 1 else 0 := by
    by_cases h : i = j <;> simp [Mat.identity, h, Cpx.one_def, Cpx.zero_def]
  have h2 : ((Mat.identity A.rows).entry i j).b = 0 := by
    by_cases h : i = j <;> simp [Mat.identity, h, Cpx.one_def, Cpx.zero_def]
  rw [h1, h2]

/-- C7, witness for `is_unitary_iff_tolerance` at the 2×2 identity matrix. -/
theorem is_unitary_iff_tolerance_witness :
    (Mat.identity 2).cols = (Mat.identity 2).rows ∧
    ((Mat.identity 2).is_unitary = true ↔
      ∀ i < (Mat.identity 2).rows, ∀ j < (Mat.identity 2).rows,
        |(((Mat.identity 2).multiply (Mat.identity 2).adjoint).entry i j).a -
            (if i = j then 1 else 0)| < 1 / 1000000000 ∧
        |(((Mat.identity 2).multiply (Mat.identity 2).adjoint).entry i j).b - 0| <
          1 / 1000000000) :=
  ⟨rfl, is_unitary_iff_tolerance (Mat.identity 2) rfl⟩

theorem foldl_set_rows (L : List ℕ) (m0 : Mat) (r c : ℕ → ℕ) (v : Cpx) :
    (L.foldl (fun mat x => mat.set (r x) (c x) v) m0).rows = m0.rows := by
  induction L generalizing m0 with
  | nil => rfl
  | cons x L ih => simpa [List.foldl_cons] using ih (m0.set (r x) (c x) v)

theorem foldl_set_cols (L : List ℕ) (m0 : Mat) (r c : ℕ → ℕ) (v : Cpx) :
    (L.foldl (fun mat x => mat.set (r x) (c x) v) m0).cols = m0.cols := by
  induction L generalizing m0 with
  | nil => rfl
  | cons x L ih => simpa [List.foldl_cons] using ih (m0.set (r x) (c x) v)

theorem foldl_set_entry (L : List ℕ) (m0 : Mat) (r c : ℕ → ℕ) (v : Cpx)
    (i j : ℕ) :
    (L.foldl (fun mat x => mat.set (r x) (c x) v) m0).entry i j =
      if ∃ x ∈ L, i = r x ∧ j = c x then v else m0.entry i j := by
  induction L generalizing m0 with
  | nil => simp
  | cons x L ih =>
    rw [List.foldl_cons, ih]
    by_cases hL : ∃ y ∈ L, i = r y ∧ j = c y
    · rw [if_pos hL]
      obtain ⟨y, hy, hyy⟩ := hL
      rw [if_pos ⟨y, List.mem_cons_of_mem _ hy, hyy⟩]
    · rw [if_neg hL]
      by_cases hx : i = r x ∧ j = c x
      · rw [if_pos ⟨x, List.mem_cons_self x L, hx⟩]
        simp [Mat.set, hx]
      · have hcons : ¬ ∃ y ∈ x :: L, i = r y ∧ j = c y := by
          rintro ⟨y, hy, hyy⟩
          rcases List.mem_cons.mp hy with h | h
          · exact hx (h ▸ hyy)
          · exact hL ⟨y, h, hyy⟩
        rw [if_neg hcons]
        simp [Mat.set, hx]

/-- C6: `unitary_modular(a, n)` is the `2^q × 2^q` matrix
(`nbits = ⌈log₂(n+1)⌉`, `mbits = 2·nbits`, `q = nbits + mbits`) that is zero
everywhere except that for each `x ∈ [0, 2^mbits)` the column `x·2^nbits`
has a single `1` at row `x·2^nbits + (a^x mod n)`.  The bounds on `a` and
`n` delimit the range where the source's `u32` arithmetic cannot overflow:
for `n ≤ 1023`, `nbits ≤ 10` so `q ≤ 30` and `2u32.pow(q)` fits; at
`n = 1024` already `q = 33` and the source's `2u32.pow(33)` overflows
(debug panic, or a wrapped size whose first `set` index-panics) instead of
returning a matrix. -/
theorem unitary_modular_spec (a n : ℕ) (ha : 1 ≤ a) (hn : 2 ≤ n)
    (hnb : n ≤ 1023) (hab : a ≤ 2 ^ 20) :
    (unitary_modular a n).rows = 2 ^ (min_bit_size n + min_bit_size n * 2) ∧
    (unitary_modular a n).cols = 2 ^ (min_bit_size n + min_bit_size n * 2) ∧
    (∀ x < 2 ^ (min_bit_size n * 2),
      (unitary_modular a n).entry
        (x * 2 ^ min_bit_size n + mod_power a x n) (x * 2 ^ min_bit_size n) = 1) ∧
    (∀ i j,
      ¬ (∃ x < 2 ^ (min_bit_size n * 2),
          j = x * 2 ^ min_bit_size n ∧
          i = x * 2 ^ min_bit_size n + mod_power a x n) →
      (unitary_modular a n).entry i j = 0) := by
  refine ⟨?_, ?_, ?_, ?_⟩
  · simpa [unitary_modular] using
      foldl_set_rows (List.range (2 ^ (min_bit_size n * 2))) _ _ _ _
  · simpa [unitary_modular] using
      foldl_set_cols (List.range (2 ^ (min_bit_size n * 2))) _ _ _ _
  · intro x hx
    rw [unitary_modular]
    rw [foldl_set_entry]
    have : ∃ y ∈ List.range (2 ^ (min_bit_size n * 2)),
        x * 2 ^ min_bit_size n + mod_power a x n =
          y * 2 ^ min_bit_size n + mod_power a y n ∧
        x * 2 ^ min_bit_size n = y * 2 ^ min_bit_size n :=
      ⟨x, List.mem_range.mpr hx, rfl, rfl⟩
    simp only [if_pos this]
  · intro i j hnot
    rw [unitary_modular]
    rw [foldl_set_entry]
    have : ¬ ∃ y ∈ List.range (2 ^ (min_bit_size n * 2)),
        i = y * 2 ^ min_bit_size n + mod_power a y n ∧
        j = y * 2 ^ min_bit_size n := by
      rintro ⟨y, hy, hi, hj⟩
      exact hnot ⟨y, List.mem_range.mp hy, hj, hi⟩
    simp only [if_neg this]
    rfl

/-- C6, witness for `unitary_modular_spec` at `(a, n) = (2, 15)`. -/
theorem unitary_modular_spec_witness :
    (1 ≤ 2 ∧ 2 ≤ 15 ∧ 15 ≤ 1023 ∧ 2 ≤ 2 ^ 20) ∧
    ((unitary_modular 2 15).rows = 2 ^ (min_bit_size 15 + min_bit_size 15 * 2) ∧
    (unitary_modular 2 15).cols = 2 ^ (min_bit_size 15 + min_bit_size 15 * 2) ∧
    (∀ x < 2 ^ (min_bit_size 15 * 2),
      (unitary_modular 2 15).entry
        (x * 2 ^ min_bit_size 15 + mod_power 2 x 15) (x * 2 ^ min_bit_size 15) = 1) ∧
    (∀ i j,
      ¬ (∃ x < 2 ^ (min_bit_size 15 * 2),
          j = x * 2 ^ min_bit_size 15 ∧
          i = x * 2 ^ min_bit_size 15 + mod_power 2 x 15) →
      (unitary_modular 2 15).entry i j = 0)) :=
  ⟨by decide, unitary_modular_spec 2 15 (by decide) (by decide) (by decide)
    (by decide)⟩

/-! ## `src/quantum_assembler/quantum_sim.rs` : the quantum state layer

Binary outcome strings (built from the characters `'0'`/`'1'` only) are
modelled as `List Bool` with `'1' = true`; Rust's string slice `s[from..to]`
becomes `strSlice`. -/

/-- Source `index_to_binary_string(index, n)` (the same function appears in
`quantum_sim.rs` and `util.rs`): for `i in (0..n).rev()` push `'1'` when
`index & (1 << i) != 0`, else `'0'` — most significant bit first. -/
def index_to_binary_string (index n : ℕ) : List Bool :=
  (List.range n).reverse.map fun i => index.testBit i

theorem index_to_binary_string_length (index n : ℕ) :
    (index_to_binary_string index n).length = n := by
  simp [index_to_binary_string]

/-- Rust's string slice `s[from..to]` on a binary string. -/
def strSlice (l : List Bool) (f t : ℕ) : List Bool := (l.drop f).take (t - f)

/-- Source `qbit_length(m)`: rounds `(rows as f64).log2()` and panics
(`none`) unless `m` is a vector and the rounded logarithm equals the exact
one under `f64_equal` — i.e. unless the row count is a power of two (exact
for all row counts a dense vector can reach). -/
def qbit_length (m : Mat) : Option ℕ :=
  if m.is_vector = true ∧ m.rows = 2 ^ Nat.log 2 m.rows then
    some (Nat.log 2 m.rows)
  else none

/-- Square of the source `Matrix::norm` (Frobenius: `sqrt(Σ |m_ij|²)`);
`prob_at` consumes only `norm()^2`, which is this sum. -/
def Mat.normSq (m : Mat) : ℚ :=
  (List.range m.rows).foldl
    (fun acc i =>
      (List.range m.cols).foldl (fun acc2 j => acc2 + (m.entry i j).modSq) acc)
    0

/-- Source `prob_at(m, idx) = m[idx][0].modulus()^2 / m.norm()^2` (the
source's panic guards hold at every call site below).  Division by the zero
rational mirrors the all-zero-vector case, where the `f64` quotient is `NaN`
and every `val < sum` comparison is false, exactly as `x / 0 = 0` makes them
here. -/
def prob_at (m : Mat) (idx : ℕ) : ℚ := (m.entry idx 0).modSq / m.normSq

/-- Source `measure_vec` selection loop: `pick = 0` initially; walking `i`
upward, accumulate `sum += prob_at(m, i)` and break with `pick = i` at the
first `i` with `val < sum`; `none` when no prefix sum exceeds `val` (then
`pick` keeps its initial value `0`). -/
def pickLoop (u : ℚ) : List ℚ → ℚ → ℕ → Option ℕ
  | [], _, _ => none
  | p :: rest, acc, i => if u < acc + p then some i else pickLoop u rest (acc + p) (i + 1)

/-- Source `measure_vec(m)`, with the `thread_rng` draw `val ∈ [0, 1)` passed
in as `u`: the binary string (MSB first, length `qbit_length m`) of the
picked index. -/
def measure_vec (m : Mat) (u : ℚ) : Option (List Bool) :=
  match qbit_length m with
  | none => none
  | some ql =>
    some (index_to_binary_string
      ((pickLoop u ((List.range m.rows).map (prob_at m)) 0 0).getD 0) ql)

/-- The `options` vector built by the first double loop of
`measure_partial_vec`: entry `j` accumulates
`options[j] = m[i][0] + options[j]` over all `i` whose binary string sliced
at `[from, to)` equals the binary string of `j` (the `j` cells are updated
independently, so the accumulation per cell is the inner fold). -/
def mpOptions (m : Mat) (q f t : ℕ) : Mat :=
  ⟨2 ^ (t - f), 1, fun j _ =>
    (List.range m.rows).foldl
      (fun acc i =>
        if strSlice (index_to_binary_string i q) f t =
            index_to_binary_string j (t - f)
        then m.entry i 0 + acc else acc)
      0⟩

/-- Source `measure_partial_vec(m, from, to)`, with the internal
`measure_vec` draw passed in as `u`.  Panics (`none`): the `is_vector`
assert; a negative `from` or `to < from` (the `i32`/`usize` casts then make
the `2^size` computation or the string slicing panic); a non-power-of-two
row count (`qbit_length`); `to` beyond the string length `q`.  Otherwise the
result keeps `m`'s entries at indices whose sliced binary string equals the
sampled outcome and zeroes every other index, without renormalising. -/
def measure_partial_vec (m : Mat) (fz tz : ℤ) (u : ℚ) : Option Mat :=
  if m.is_vector then
    if fz < 0 ∨ tz < fz then none
    else
      match qbit_length m with
      | none => none
      | some q =>
        if q < tz.toNat then none
        else
          match measure_vec (mpOptions m q fz.toNat tz.toNat) u with
          | none => none
          | some res =>
            some ⟨m.rows, m.cols, fun i j =>
              if strSlice (index_to_binary_string i q) fz.toNat tz.toNat ≠ res
              then 0 else m.entry i j⟩
  else none

/-- The index picked by the `measure_vec` loop, then rendered as a binary
string of length `q`: the normal form of `measure_vec` on a `2^q × 1`
vector. -/
def vecOutcome (m : Mat) (q : ℕ) (u : ℚ) : List Bool :=
  index_to_binary_string
    ((pickLoop u ((List.range m.rows).map (prob_at m)) 0 0).getD 0) q

/-- The slice outcome sampled inside `measure_partial_vec`: `measure_vec` on
the compact `options` vector. -/
def mpOutcome (m : Mat) (q f t : ℕ) (u : ℚ) : List Bool :=
  vecOutcome (mpOptions m q f t) (t - f) u

/-- The collapsed vector returned by `measure_partial_vec`. -/
def collapsedAt (m : Mat) (q f t : ℕ) (u : ℚ) : Mat :=
  ⟨m.rows, m.cols, fun i j =>
    if strSlice (index_to_binary_string i q) f t ≠ mpOutcome m q f t u then 0
    else m.entry i j⟩

theorem foldl_ite_add (n : ℕ) (p : ℕ → Prop) [DecidablePred p] (g : ℕ → Cpx)
    (c : Cpx) :
    (List.range n).foldl (fun acc i => if p i then g i + acc else acc) c =
      c + ∑ i ∈ Finset.range n, if p i then g i else 0 := by
  induction n generalizing c with
  | zero => simp
  | succ n ih =>
    rw [List.range_succ, List.foldl_append, ih, Finset.sum_range_succ]
    by_cases hp : p n <;>
      simp [hp, add_comm, add_assoc, add_left_comm]

theorem qbit_length_pow (m : Mat) (q : ℕ) (hr : m.rows = 2 ^ q)
    (hc : m.cols = 1) : qbit_length m = some q := by
  simp [qbit_length, Mat.is_vector, hc, hr, Nat.log_pow]

theorem measure_vec_eq (m : Mat) (q : ℕ) (u : ℚ) (hr : m.rows = 2 ^ q)
    (hc : m.cols = 1) : measure_vec m u = some (vecOutcome m q u) := by
  simp only [measure_vec, qbit_length_pow m q hr hc, vecOutcome]

theorem measure_partial_vec_eq (m : Mat) (q f t : ℕ) (u : ℚ)
    (hr : m.rows = 2 ^ q) (hc : m.cols = 1) (hft : f ≤ t) (htq : t ≤ q) :
    measure_partial_vec m (f : ℤ) (t : ℤ) u = some (collapsedAt m q f t u) := by
  have hv : m.is_vector = true := by simp [Mat.is_vector, hc]
  have hneg : ¬ ((f : ℤ) < 0 ∨ (t : ℤ) < (f : ℤ)) := by
    push_neg
    exact ⟨Int.ofNat_nonneg f, by exact_mod_cast hft⟩
  have hno : ¬ (q < ((t : ℤ)).toNat) := by
    rw [Int.toNat_natCast]
    omega
  have hs : measure_vec (mpOptions m q f t) u = some (mpOutcome m q f t u) :=
    measure_vec_eq (mpOptions m q f t) (t - f) u rfl rfl
  rw [measure_partial_vec]
  simp only [hv, if_true, if_neg hneg, qbit_length_pow m q hr hc,
    Int.toNat_natCast, if_neg hno, hs]
  rw [if_neg (show ¬ q < t by omega)]
  rfl

/-- C2: for a `2^q`-row vector `v` and `0 ≤ from ≤ to ≤ q`,
`measure_partial_vec` succeeds and returns a vector of the same dimensions
in which every index whose bits at positions `[from, to)` (MSB first) equal
the sampled outcome `s` keeps exactly its amplitude and every other index is
zero (no renormalisation); `s` is the outcome of `measure_vec` on the
compact vector of length `2^(to-from)` whose entry `j` is the sum of the
amplitudes of the indices of `v` carrying slice pattern `j`. -/
theorem measure_partial_vec_spec (m : Mat) (q f t : ℕ) (u : ℚ)
    (hr : m.rows = 2 ^ q) (hc : m.cols = 1) (hft : f ≤ t) (htq : t ≤ q) :
    ∃ R s,
      measure_partial_vec m (f : ℤ) (t : ℤ) u = some R ∧
      measure_vec (mpOptions m q f t) u = some s ∧
      R.rows = m.rows ∧ R.cols = m.cols ∧
      (∀ i j, R.entry i j =
        if strSlice (index_to_binary_string i q) f t = s then m.entry i j
        else 0) ∧
      (mpOptions m q f t).rows = 2 ^ (t - f) ∧
      (mpOptions m q f t).cols = 1 ∧
      (∀ jj, (mpOptions m q f t).entry jj 0 =
        ∑ i ∈ Finset.range m.rows,
          if strSlice (index_to_binary_string i q) f t =
              index_to_binary_string jj (t - f)
          then m.entry i 0 else 0) := by
  refine ⟨collapsedAt m q f t u, mpOutcome m q f t u,
    measure_partial_vec_eq m q f t u hr hc hft htq,
    measure_vec_eq (mpOptions m q f t) (t - f) u rfl rfl,
    rfl, rfl, ?_, rfl, rfl, ?_⟩
  · intro i j
    show (if strSlice (index_to_binary_string i q) f t ≠ mpOutcome m q f t u
        then 0 else m.entry i j) = _
    by_cases hss : strSlice (index_to_binary_string i q) f t = mpOutcome m q f t u <;>
      simp [hss]
  · intro jj
    show (List.range m.rows).foldl _ 0 = _
    rw [foldl_ite_add m.rows
      (fun i => strSlice (index_to_binary_string i q) f t =
        index_to_binary_string jj (t - f)) (fun i => m.entry i 0) 0]
    rw [zero_add]

/-- C2, witness for `measure_partial_vec_spec` at the vector `|00⟩`
(`[1, 0, 0, 0]ᵀ`), measuring qubit range `[0, 1)` with draw `u = 0`. -/
theorem measure_partial_vec_spec_witness :
    ((Mat.mk 4 1 fun i _ => if i = 0 then 1 else 0).rows = 2 ^ 2 ∧
     (Mat.mk 4 1 fun i _ => if i = 0 then 1 else 0).cols = 1 ∧ 0 ≤ 1 ∧ 1 ≤ 2) ∧
    (∃ R s,
      measure_partial_vec (Mat.mk 4 1 fun i _ => if i = 0 then 1 else 0)
        ((0 : ℕ) : ℤ) ((1 : ℕ) : ℤ) 0 = some R ∧
      measure_vec (mpOptions (Mat.mk 4 1 fun i _ => if i = 0 then 1 else 0)
        2 0 1) 0 = some s ∧
      R.rows = (Mat.mk 4 1 fun i _ => if i = 0 then 1 else 0).rows ∧
      R.cols = (Mat.mk 4 1 fun i _ => if i = 0 then 1 else 0).cols ∧
      (∀ i j, R.entry i j =
        if strSlice (index_to_binary_string i 2) 0 1 = s then
          (Mat.mk 4 1 fun i _ => if i = 0 then 1 else 0).entry i j
        else 0) ∧
      (mpOptions (Mat.mk 4 1 fun i _ => if i = 0 then 1 else 0) 2 0 1).rows =
        2 ^ (1 - 0) ∧
      (mpOptions (Mat.mk 4 1 fun i _ => if i = 0 then 1 else 0) 2 0 1).cols = 1 ∧
      (∀ jj, (mpOptions (Mat.mk 4 1 fun i _ => if i = 0 then 1 else 0)
          2 0 1).entry jj 0 =
        ∑ i ∈ Finset.range
          (Mat.mk 4 1 fun i _ => if i = 0 then 1 else 0).rows,
          if strSlice (index_to_binary_string i 2) 0 1 =
              index_to_binary_string jj (1 - 0)
          then (Mat.mk 4 1 fun i _ => if i = 0 then 1 else 0).entry i 0
          else 0)) :=
  ⟨⟨rfl, rfl, by decide, by decide⟩,
    measure_partial_vec_spec (Mat.mk 4 1 fun i _ => if i = 0 then 1 else 0)
      2 0 1 0 rfl rfl (by decide) (by decide)⟩

/-! ## `src/quantum_assembler_lexer.rs` : the lexer -/

/-- Source `TokenType`. -/
inductive TokenType where
  | Action
  | Prefabs
  | Identifier
  | Literal
  | OpenBracket
  | CloseBracket
  | NewLine
  deriving DecidableEq

/-- Source `Token { token_type, value }`; the value is the token text as a
character list. -/
structure Token where
  token_type : TokenType
  value : List Char
  deriving DecidableEq

/-- Digit-run accumulator for the model of Rust's `str::parse::<i32>`:
consumes the remaining characters, failing on any non-digit. -/
def goDigits : List Char → ℕ → Option ℕ
  | [], acc => some acc
  | c :: r, acc => if c.isDigit then goDigits r (acc * 10 + (c.toNat - 48)) else none

/-- Value of a non-empty all-digit string. -/
def digitsVal (s : List Char) : Option ℕ :=
  if s = [] then none else goDigits s 0

/-- Model of `s.parse::<i32>().is_ok()`: an optional sign followed by at
least one digit, with the value in `i32` range (leading zeros allowed, as in
Rust). -/
def isI32 (s : List Char) : Bool :=
  match s with
  | '+' :: rest =>
    match digitsVal rest with
    | some v => decide (v ≤ 2 ^ 31 - 1)
    | none => false
  | '-' :: rest =>
    match digitsVal rest with
    | some v => decide (v ≤ 2 ^ 31)
    | none => false
  | _ =>
    match digitsVal s with
    | some v => decide (v ≤ 2 ^ 31 - 1)
    | none => false

/-- Source `match_token_type`: the seven action words; then the *fixed* list
`G_H | G_R_2 | G_R_4 | G_I_2 | G_I_4 | G_I_8 | G_CNOT` of prefab spellings
(the source comment reads `TODO: MAKE _2 _4 params`); then `Literal` if the
text parses as an `i32`, else `Identifier`. -/
def match_token_type (tk : List Char) : TokenType :=
  if tk = "INITIALIZE".toList ∨ tk = "MEASURE".toList ∨ tk = "SELECT".toList ∨
      tk = "APPLY".toList ∨ tk = "CONCAT".toList ∨ tk = "TENSOR".toList ∨
      tk = "INVERSE".toList then
    TokenType.Action
  else if tk = "G_H".toList ∨ tk = "G_R_2".toList ∨ tk = "G_R_4".toList ∨
      tk = "G_I_2".toList ∨ tk = "G_I_4".toList ∨ tk = "G_I_8".toList ∨
      tk = "G_CNOT".toList then
    TokenType.Prefabs
  else if isI32 tk then TokenType.Literal
  else TokenType.Identifier

/-- Source `push_current_token`: emit the pending word (if non-empty) with
its `match_token_type` tag, stripping single quotes from the emitted value. -/
def flushTok (cur : List Char) (rest : List Token) : List Token :=
  if cur.length > 0 then
    ⟨match_token_type cur, cur.filter fun c => c ≠ '\''⟩ :: rest
  else rest

/-- Recursive core of the source `tokenize` loop (`cur` is
`current_token`). -/
def tokenizeAux : List Char → List Char → List Token
  | [], cur => flushTok cur []
  | c :: r, cur =>
    if c = ' ' then flushTok cur (tokenizeAux r [])
    else if c = '\n' then flushTok cur (⟨TokenType.NewLine, ['\n']⟩ :: tokenizeAux r [])
    else if c = '[' then flushTok cur (⟨TokenType.OpenBracket, ['[']⟩ :: tokenizeAux r [])
    else if c = ']' then flushTok cur (⟨TokenType.CloseBracket, [']']⟩ :: tokenizeAux r [])
    else tokenizeAux r (cur ++ [c])

/-- Source `tokenize(inp)`. -/
def tokenize (inp : List Char) : List Token := tokenizeAux inp []

/-- C8, counterexample.  The claim says every word starting with `G_`
(including the `G_QFTI_<k>` shape) is tagged `Prefabs`; the source's
`match_token_type` only recognises a fixed list of seven prefab spellings,
so the word `G_QFTI_3` is tagged `Identifier`. -/
theorem lexer_claim_false_on_G_QFTI_3 :
    tokenize "G_QFTI_3".toList =
      [⟨TokenType.Identifier, "G_QFTI_3".toList⟩] ∧
    "G_QFTI_3".toList.take 2 = "G_".toList ∧
    match_token_type "G_QFTI_3".toList ≠ TokenType.Prefabs := by
  decide

/-- C8, amended.  A word token starting with `G_` is tagged `Prefabs` only
when it is one of the seven fixed spellings `G_H`, `G_R_2`, `G_R_4`,
`G_I_2`, `G_I_4`, `G_I_8`, `G_CNOT`; every other `G_`-word (in particular
the `G_Uf_<a>_<n>` and `G_QFTI_<k>` shapes) is tagged `Identifier`. -/
theorem match_token_type_G_words (tk : List Char) (h : tk.take 2 = ['G', '_']) :
    match_token_type tk =
      (if tk = "G_H".toList ∨ tk = "G_R_2".toList ∨ tk = "G_R_4".toList ∨
          tk = "G_I_2".toList ∨ tk = "G_I_4".toList ∨ tk = "G_I_8".toList ∨
          tk = "G_CNOT".toList then
        TokenType.Prefabs
      else TokenType.Identifier) := by
  obtain ⟨rest, rfl⟩ : ∃ rest, tk = 'G' :: '_' :: rest := by
    match tk, h with
    | a :: b :: r, h =>
      simp only [List.take, List.cons.injEq, and_true] at h
      exact ⟨r, by rw [h.1, h.2]⟩
  by_cases hp : 'G' :: '_' :: rest = "G_H".toList ∨
      'G' :: '_' :: rest = "G_R_2".toList ∨
      'G' :: '_' :: rest = "G_R_4".toList ∨
      'G' :: '_' :: rest = "G_I_2".toList ∨
      'G' :: '_' :: rest = "G_I_4".toList ∨
      'G' :: '_' :: rest = "G_I_8".toList ∨
      'G' :: '_' :: rest = "G_CNOT".toList
  · rw [if_pos hp]
    rcases hp with h | h | h | h | h | h | h <;> rw [h] <;> rfl
  · rw [if_neg hp]
    have hact : ¬ ('G' :: '_' :: rest = "INITIALIZE".toList ∨
        'G' :: '_' :: rest = "MEASURE".toList ∨
        'G' :: '_' :: rest = "SELECT".toList ∨
        'G' :: '_' :: rest = "APPLY".toList ∨
        'G' :: '_' :: rest = "CONCAT".toList ∨
        'G' :: '_' :: rest = "TENSOR".toList ∨
        'G' :: '_' :: rest = "INVERSE".toList) := by
      rintro (h | h | h | h | h | h | h) <;>
        (injection h with h1 _; exact absurd h1 (by decide))
    have hI : isI32 ('G' :: '_' :: rest) = false := rfl
    rw [match_token_type, if_neg hact, if_neg hp, hI]
    rfl

/-- C8, witness for `match_token_type_G_words` at the word `G_Uf_2_15`. -/
theorem match_token_type_G_words_witness :
    "G_Uf_2_15".toList.take 2 = ['G', '_'] ∧
    match_token_type "G_Uf_2_15".toList =
      (if "G_Uf_2_15".toList = "G_H".toList ∨
          "G_Uf_2_15".toList = "G_R_2".toList ∨
          "G_Uf_2_15".toList = "G_R_4".toList ∨
          "G_Uf_2_15".toList = "G_I_2".toList ∨
          "G_Uf_2_15".toList = "G_I_4".toList ∨
          "G_Uf_2_15".toList = "G_I_8".toList ∨
          "G_Uf_2_15".toList = "G_CNOT".toList then
        TokenType.Prefabs
      else TokenType.Identifier) :=
  ⟨by decide, match_token_type_G_words "G_Uf_2_15".toList (by decide)⟩

/-! ## `src/quantum_assembler/executor.rs` : the executor

The executor walks the parser's AST over a two-region environment.  `EState`
bundles the source's `QuantumMemory { heap, measurements }` (hash maps are
modelled as functions into `Option`) with the position `rix` in the stream
`rng` of `thread_rng` draws consumed by `measure_vec`.  Every internal
`Result` is modelled as `Except RTError`; every `.unwrap()` of an error, and
every other panic, is `none`. -/

/-- Source `parser.rs` `MemoryLocation`. -/
inductive MemoryLocation where
  | Heap
  | Measurement
  deriving DecidableEq

/-- Source `parser.rs` `ASTNode` (the `Rc` indirection is dropped). -/
inductive ASTNode where
  | Literal (v : String)
  | Identifier (name : String)
  | VariableAssignment (name : String) (loc : MemoryLocation) (val : ASTNode)
  | FunctionApplication (func : String) (args : List ASTNode)

/-- Source `executor.rs` `RunTimeError`. -/
inductive RTError where
  | SyntaxError (msg : String)
  | NotImplemented
  deriving DecidableEq

/-- Source `executor.rs` `LiteralValue`. -/
inductive LiteralValue where
  | Matrix (m : Mat)
  | Int (i : ℤ)
  | Selection (key : String) (loc : MemoryLocation) (start stop : ℤ)
  | Measurement (m : Mat) (outcome : List Bool)

/-- Source `QuantumMemory { heap, measurements }` together with the position
in the random stream. -/
structure EState where
  heap : String → Option LiteralValue
  meas : String → Option (Mat × List Bool)
  rix : ℕ

/-- `HashMap::insert` on the heap. -/
def insertHeap (k : String) (v : LiteralValue) (st : EState) : EState :=
  { st with heap := fun k' => if k' = k then some v else st.heap k' }

/-- `HashMap::insert` on the measurement region. -/
def insertMeas (k : String) (v : Mat × List Bool) (st : EState) : EState :=
  { st with meas := fun k' => if k' = k then some v else st.meas k' }

/-- Source `unwrap_matrix`. -/
def unwrap_matrix : LiteralValue → Except RTError Mat
  | .Matrix m => .ok m
  | _ => .error (.SyntaxError "Invalid matrix")

/-- Source `unwrap_selection`. -/
def unwrap_selection : LiteralValue → Except RTError (String × MemoryLocation × ℤ × ℤ)
  | .Selection k l a b => .ok (k, l, a, b)
  | _ => .error (.SyntaxError "Invalid matrix")

/-- Source `unwrap_int`. -/
def unwrap_int : LiteralValue → Except RTError ℤ
  | .Int i => .ok i
  | _ => .error (.SyntaxError "Invalid matrix")

/-- Digit-run scanner modelling the `regex \d+ find_iter` of
`parse_params_from_prefebs`: the values of the maximal digit runs of the
string, in order. -/
def digitRunsAux : List Char → Option ℕ → List ℕ
  | [], none => []
  | [], some acc => [acc]
  | c :: r, none =>
    if c.isDigit then digitRunsAux r (some (c.toNat - 48))
    else digitRunsAux r none
  | c :: r, some acc =>
    if c.isDigit then digitRunsAux r (some (acc * 10 + (c.toNat - 48)))
    else acc :: digitRunsAux r none

/-- The numbers embedded in a prefab name (`G_Uf_2_15` ↦ `[2, 15]`). -/
def digitRuns (s : List Char) : List ℕ := digitRunsAux s none

/-- Source `parse_params_from_prefebs`: the digit runs of the literal, or
`SyntaxError` when their count differs from `expected` (the regex itself
always compiles, so that error path is dead). -/
def parse_params_from_prefebs (lit : List Char) (expected : ℕ) :
    Except RTError (List ℕ) :=
  let nmbrs := digitRuns lit
  if nmbrs.length ≠ expected then .error (.SyntaxError "Invalid literal")
  else .ok nmbrs

/-- Model of `str::parse::<i32>` on a string accepted by `isI32`. -/
def strToInt (s : List Char) : ℤ :=
  match s with
  | '-' :: r => -((digitsVal r).getD 0 : ℤ)
  | '+' :: r => ((digitsVal r).getD 0 : ℤ)
  | _ => ((digitsVal s).getD 0 : ℤ)

/-- List-prefix test modelling `str::starts_with` (first argument is the
pattern). -/
def startsWithL : List Char → List Char → Bool
  | [], _ => true
  | _ :: _, [] => false
  | p :: ps, c :: cs => p == c && startsWithL ps cs

/-- Source `cnot()`: the 4×4 permutation matrix swapping `|10⟩` and
`|11⟩`. -/
def cnotM : Mat :=
  ⟨4, 4, fun i j =>
    if (i = 0 ∧ j = 0) ∨ (i = 1 ∧ j = 1) ∨ (i = 2 ∧ j = 3) ∨ (i = 3 ∧ j = 2)
    then 1 else 0⟩

section Executor

/- In this section, `rng k` is the `k`-th draw of `thread_rng` (each
`gen::<f64>()` call of `measure_vec` consumes one); `hadamardM`,
`phase_shiftM k` (the source's `phase_shift(PI / k)`) and `qftM k` (the
source's `quantum_fourier(k)`) are the gate constructors whose `f64` entries
involve the irrational constants `1/√2`, `cos/sin(π/k)` and `2^(-k/2)` and
hence have no exact rational embedding; every claim below holds for all
values of these parameters. -/
variable (rng : ℕ → ℚ) (hadamardM : Mat) (phase_shiftM : ℕ → Mat)
  (qftM : ℕ → Mat)

/-- Source `parse_literal(v)`.  The result is `none` when the source panics
(`parse_params_from_prefebs(..).unwrap()` on a `G_`-word with the wrong
number of digit runs), `some (.error _)` for `Err(Invalid literal)`, and
`some (.ok _)` otherwise. -/
def parse_literal (v : String) : Option (Except RTError LiteralValue) :=
  if v = "G_H" then some (.ok (.Matrix hadamardM))
  else if v = "G_CNOT" then some (.ok (.Matrix cnotM))
  else if startsWithL "G_R_".toList v.toList then
    match parse_params_from_prefebs v.toList 1 with
    | .error _ => none
    | .ok nmbrs => some (.ok (.Matrix (phase_shiftM (nmbrs.headD 0))))
  else if startsWithL "G_I_".toList v.toList then
    match parse_params_from_prefebs v.toList 1 with
    | .error _ => none
    | .ok nmbrs => some (.ok (.Matrix (Mat.identity (nmbrs.headD 0))))
  else if startsWithL "G_Uf_".toList v.toList then
    match parse_params_from_prefebs v.toList 2 with
    | .error _ => none
    | .ok nmbrs => some (.ok (.Matrix (unitary_modular (nmbrs.headD 0) (nmbrs.getD 1 0))))
  else if startsWithL "G_QFTI_".toList v.toList then
    match parse_params_from_prefebs v.toList 1 with
    | .error _ => none
    | .ok nmbrs => some (.ok (.Matrix ((qftM (nmbrs.headD 0)).adjoint)))
  else if isI32 v.toList then some (.ok (.Int (strToInt v.toList)))
  else some (.error (.SyntaxError "Invalid literal"))

/-- The body of `parse_func_application` after its parameters have been
evaluated: the match on the operator name.  `validate_param_len(..).unwrap()`
and the `.unwrap()`s of `unwrap_matrix`/`unwrap_int`/`unwrap_selection`
panic (`none`); the shape checks produce `Err(SyntaxError ..)`; an unknown
operator produces `Err(NotImplemented)`. -/
def apply_builtin (func : String) (params : List (String × LiteralValue))
    (st : EState) :
    Option (EState × Except RTError (Option (String × LiteralValue))) :=
  if func = "INITIALIZE" then
    match params with
    | [p0] =>
      match unwrap_int p0.2 with
      | .error _ => none
      | .ok value =>
        if value < 0 ∨ 31 < value then none
        else
          some (st, .ok (some (func,
            .Matrix ⟨2 ^ value.toNat, 1, fun i j => if i = 0 ∧ j = 0 then 1 else 0⟩)))
    | _ => none
  else if func = "INVERSE" then
    match params with
    | [p0] =>
      match unwrap_matrix p0.2 with
      | .error _ => none
      | .ok m =>
        if m.is_hermitian = false then
          some (st, .error (.SyntaxError
            "Input invalid for INVERSE, should be a hermetian matrix"))
        else some (st, .ok (some (func, .Matrix m.adjoint)))
    | _ => none
  else if func = "TENSOR" then
    match params with
    | [p0, p1] =>
      match unwrap_matrix p0.2, unwrap_matrix p1.2 with
      | .ok m1, .ok m2 => some (st, .ok (some (func, .Matrix (m1.tensor m2))))
      | _, _ => none
    | _ => none
  else if func = "CONCAT" then
    match params with
    | [p0, p1] =>
      match unwrap_matrix p0.2, unwrap_matrix p1.2 with
      | .ok m1, .ok m2 =>
        if ¬ (m1.rows = m2.rows ∧ m1.cols = m2.cols) then
          some (st, .error (.SyntaxError "Matrix sizes should be equal to CONCAT"))
        else if m1.cols ≠ m2.rows then none
        else some (st, .ok (some (func, .Matrix (m1.multiply m2))))
      | _, _ => none
    | _ => none
  else if func = "APPLY" then
    match params with
    | [p0, p1] =>
      match unwrap_matrix p0.2, unwrap_matrix p1.2 with
      | .ok m, .ok v =>
        if ¬ v.is_vector ∨ v.rows ≠ m.cols then
          some (st, .error (.SyntaxError
            "Input invalid for APPLY, first arg should be a hermetian matrix & the second arg should be vector with equal columns"))
        else some (st, .ok (some (func, .Matrix (m.multiply v))))
      | _, _ => none
    | _ => none
  else if func = "SELECT" then
    match params with
    | [p0, p1, p2] =>
      match unwrap_matrix p0.2, unwrap_int p1.2, unwrap_int p2.2 with
      | .ok vec, .ok start, .ok stop =>
        match qbit_length vec with
        | none => none
        | some ql =>
          if ¬ vec.is_vector ∨ start > stop ∨ stop < 0 ∨ ql < stop.toNat then
            some (st, .error (.SyntaxError "Invalid range for SELECT"))
          else some (st, .ok (some (func, .Selection p0.1 .Heap start stop)))
      | _, _, _ => none
    | _ => none
  else if func = "MEASURE" then
    match params with
    | [p0] =>
      match unwrap_matrix p0.2 with
      | .ok v =>
        if ¬ v.is_vector then
          some (st, .error (.SyntaxError
            "Invalid input for MEASURE, should be a vector"))
        else
          match measure_vec v (rng st.rix) with
          | none => none
          | some bits =>
            some ({ st with rix := st.rix + 1 },
              .ok (some (func, .Measurement v bits)))
      | .error _ =>
        match unwrap_selection p0.2 with
        | .error _ => none
        | .ok (key, _, start, stop) =>
          match st.heap key with
          | none => none
          | some lv =>
            match unwrap_matrix lv with
            | .error _ => none
            | .ok v =>
              if ¬ v.is_vector then
                some (st, .error (.SyntaxError
                  "Invalid input for MEASURE, should be a vector"))
              else
                match measure_partial_vec v start stop (rng st.rix) with
                | none => none
                | some res =>
                  let st1 := insertHeap key (.Matrix res)
                    { st with rix := st.rix + 1 }
                  match measure_vec res (rng st1.rix) with
                  | none => none
                  | some bits =>
                    some ({ st1 with rix := st1.rix + 1 },
                      .ok (some (func, .Measurement res bits)))
    | _ => none
  else some (st, .error .NotImplemented)

mutual

/-- Source `execute_ast_node`.  `none` models a panic; `some (st, .error e)`
models a returned `Err(e)` with the memory as mutated so far; the `String`
in the result is the source-name of the evaluated argument (`"_"` for a
literal). -/
def execute_ast_node (node : ASTNode) (st : EState) :
    Option (EState × Except RTError (Option (String × LiteralValue))) :=
  match node with
  | .Literal v =>
    match parse_literal hadamardM phase_shiftM qftM v with
    | none => none
    | some (.error _) => none
    | some (.ok lv) => some (st, .ok (some ("_", lv)))
  | .Identifier x =>
    match st.heap x with
    | some lv => some (st, .ok (some (x, lv)))
    | none => none
  | .VariableAssignment tgt loc val =>
    match parse_var_assignment tgt val loc st with
    | none => none
    | some (_, .error _) => none
    | some (st', .ok _) => some (st', .ok none)
  | .FunctionApplication f ps => parse_func_application f ps st
termination_by 2 * sizeOf node

/-- Source `parse_var_assignment`: evaluate the body (`.unwrap()`), then
insert into the region matching the value's kind, or `Err(Invalid
assignment)`. -/
def parse_var_assignment (tgt : String) (val : ASTNode) (loc : MemoryLocation)
    (st : EState) : Option (EState × Except RTError (Option LiteralValue)) :=
  match execute_ast_node val st with
  | none => none
  | some (_, .error _) => none
  | some (st', .ok none) => some (st', .error (.SyntaxError "Variable not found"))
  | some (st', .ok (some (_, lv))) =>
    match loc, lv with
    | .Heap, .Int i => some (insertHeap tgt (.Int i) st', .ok none)
    | .Heap, .Matrix m => some (insertHeap tgt (.Matrix m) st', .ok none)
    | .Heap, .Selection k l a b =>
      some (insertHeap tgt (.Selection k l a b) st', .ok none)
    | .Measurement, .Measurement m bits =>
      some (insertMeas tgt (m, bits) st', .ok none)
    | _, _ => some (st', .error (.SyntaxError "Invalid assignment"))
termination_by 2 * sizeOf val + 1

/-- The parameter evaluation of `parse_func_application`:
`params.iter().map(|p| execute_ast_node(p, memory).unwrap()).filter_map(|p| p)`
— sequential evaluation threading the memory, panicking on any `Err` and
dropping `None` results. -/
def exec_params (ps : List ASTNode) (st : EState) :
    Option (EState × List (String × LiteralValue)) :=
  match ps with
  | [] => some (st, [])
  | p :: rest =>
    match execute_ast_node p st with
    | none => none
    | some (_, .error _) => none
    | some (st', .ok o) =>
      match exec_params rest st' with
      | none => none
      | some (st'', l) =>
        some (st'', match o with | some pr => pr :: l | none => l)
termination_by 2 * sizeOf ps

/-- Source `parse_func_application`: evaluate the parameters, then dispatch
on the operator name (`apply_builtin`). -/
def parse_func_application (f : String) (ps : List ASTNode) (st : EState) :
    Option (EState × Except RTError (Option (String × LiteralValue))) :=
  match exec_params ps st with
  | none => none
  | some (st', params) => apply_builtin rng f params st'
termination_by 2 * sizeOf ps + 1

end

/-- The statement loop of `execute_script`:
`execute_ast_node(&node, &mut memory).unwrap()` for each node in order. -/
def exec_nodes (ast : List ASTNode) (st : EState) : Option EState :=
  match ast with
  | [] => some st
  | node :: rest =>
    match execute_ast_node rng hadamardM phase_shiftM qftM node st with
    | none => none
    | some (_, .error _) => none
    | some (st', .ok _) => exec_nodes rest st'

/-- Source `execute_script(ast)`: runs the statements over an initially
empty two-region memory and returns `Ok(memory.measurements)`.  Its declared
result type carries the `RunTimeError` channel (`Except RTError _`), but
every runtime error is `.unwrap()`ed inside the loop, i.e. panics. -/
def execute_script (ast : List ASTNode) :
    Option (Except RTError (String → Option (Mat × List Bool))) :=
  match exec_nodes rng hadamardM phase_shiftM qftM ast
      ⟨fun _ => none, fun _ => none, 0⟩ with
  | none => none
  | some st => some (.ok st.meas)

theorem exec_measure_selection (tgt sel src : String) (f t q : ℕ) (v : Mat)
    (st : EState)
    (hsel : st.heap sel = some (.Selection src .Heap (f : ℤ) (t : ℤ)))
    (hsrc : st.heap src = some (.Matrix v))
    (hr : v.rows = 2 ^ q) (hc : v.cols = 1) (hft : f ≤ t) (htq : t ≤ q) :
    execute_ast_node rng hadamardM phase_shiftM qftM
      (.VariableAssignment tgt .Measurement
        (.FunctionApplication "MEASURE" [.Identifier sel])) st =
    some (insertMeas tgt
        (collapsedAt v q f t (rng st.rix),
          vecOutcome (collapsedAt v q f t (rng st.rix)) q (rng (st.rix + 1)))
        (insertHeap src (.Matrix (collapsedAt v q f t (rng st.rix)))
          { st with rix := st.rix + 2 }),
      .ok none) := by
  have hmp : measure_partial_vec v (f : ℤ) (t : ℤ) (rng st.rix) =
      some (collapsedAt v q f t (rng st.rix)) :=
    measure_partial_vec_eq v q f t (rng st.rix) hr hc hft htq
  have hmv : measure_vec (collapsedAt v q f t (rng st.rix)) (rng (st.rix + 1)) =
      some (vecOutcome (collapsedAt v q f t (rng st.rix)) q (rng (st.rix + 1))) :=
    measure_vec_eq _ q _ (by simpa [collapsedAt] using hr)
      (by simpa [collapsedAt] using hc)
  have hvv : v.is_vector = true := by simp [Mat.is_vector, hc]
  simp only [execute_ast_node, parse_var_assignment, parse_func_application,
    exec_params, hsel, apply_builtin, unwrap_matrix, unwrap_selection, hsrc,
    hvv, hmp, hmv]
  simp [hmv, insertHeap, insertMeas]

/-- Argument shapes the parser can emit inside a statement's
`FunctionApplication`: bare literals (including prefab names) and
identifiers. -/
def simpleArgB : ASTNode → Bool
  | .Literal _ => true
  | .Identifier _ => true
  | _ => false

/-- Argument shapes of parser statements, including the nested
`App("VECTOR", literals)` of the vector-literal `INITIALIZE` form. -/
def parserArgB : ASTNode → Bool
  | .Literal _ => true
  | .Identifier _ => true
  | .FunctionApplication f l => f = "VECTOR" && l.all simpleArgB
  | _ => false

/-- The heap entry that a `MEASURE` statement collapses: the source name of
the Selection its argument is bound to, when there is one. -/
def measuredSrc (f : String) (args : List ASTNode)
    (heap : String → Option LiteralValue) : Option String :=
  if f = "MEASURE" then
    match args with
    | [.Identifier s] =>
      match heap s with
      | some (.Selection key _ _ _) => some key
      | _ => none
    | _ => none
  else none

theorem exec_simple_frame (a : ASTNode) (ha : simpleArgB a = true) (st : EState)
    (r : EState × Except RTError (Option (String × LiteralValue)))
    (h : execute_ast_node rng hadamardM phase_shiftM qftM a st = some r) :
    r.1 = st ∧ ∃ pr, r.2 = .ok (some pr) := by
  match a, ha with
  | .Literal v, _ =>
    rw [execute_ast_node] at h
    cases hpl : parse_literal hadamardM phase_shiftM qftM v with
    | none => rw [hpl] at h; cases h
    | some e =>
      cases e with
      | error e => rw [hpl] at h; cases h
      | ok lv =>
        rw [hpl] at h
        cases h
        exact ⟨rfl, _, rfl⟩
  | .Identifier x, _ =>
    rw [execute_ast_node] at h
    cases hx : st.heap x with
    | none => rw [hx] at h; cases h
    | some lv =>
      rw [hx] at h
      cases h
      exact ⟨rfl, _, rfl⟩

theorem exec_params_simple_frame (ps : List ASTNode)
    (hps : ps.all simpleArgB = true) (st : EState)
    (r : EState × List (String × LiteralValue))
    (h : exec_params rng hadamardM phase_shiftM qftM ps st = some r) :
    r.1 = st ∧ r.2.length = ps.length := by
  induction ps generalizing st r with
  | nil =>
    rw [exec_params] at h
    cases h
    exact ⟨rfl, rfl⟩
  | cons p rest ih =>
    rw [List.all_cons, Bool.and_eq_true] at hps
    rw [exec_params] at h
    cases hp : execute_ast_node rng hadamardM phase_shiftM qftM p st with
    | none => rw [hp] at h; cases h
    | some r1 =>
      obtain ⟨hst1, pr, hpr⟩ := exec_simple_frame rng hadamardM phase_shiftM qftM p hps.1 st r1 hp
      rw [hp] at h
      obtain ⟨st1, e1⟩ := r1
      cases e1 with
      | error e => cases h
      | ok o =>
        dsimp only at h
        cases ho : exec_params rng hadamardM phase_shiftM qftM rest st1 with
        | none => rw [ho] at h; cases h
        | some r2 =>
          rw [ho] at h
          obtain ⟨hst2, hlen⟩ := ih hps.2 st1 r2 ho
          cases h
          simp only at hst1
          cases hpr
          constructor
          · rw [hst2, hst1]
          · simp [hlen]

theorem parse_literal_kinds (v : String) (lv : LiteralValue)
    (h : parse_literal hadamardM phase_shiftM qftM v = some (.ok lv)) :
    (∃ m, lv = .Matrix m) ∨ ∃ i, lv = .Int i := by
  rw [parse_literal] at h
  split_ifs at h
  all_goals try (split at h)
  all_goals try (cases h)
  all_goals first | exact Or.inl ⟨_, rfl⟩ | exact Or.inr ⟨_, rfl⟩

theorem exec_vector_arg (f : String) (l : List ASTNode) (hf : f = "VECTOR")
    (hl : l.all simpleArgB = true) (st : EState)
    (r : EState × Except RTError (Option (String × LiteralValue)))
    (h : execute_ast_node rng hadamardM phase_shiftM qftM
      (.FunctionApplication f l) st = some r) :
    r = (st, .error .NotImplemented) := by
  subst hf
  rw [execute_ast_node, parse_func_application] at h
  cases hps : exec_params rng hadamardM phase_shiftM qftM l st with
  | none => rw [hps] at h; cases h
  | some r2 =>
    rw [hps] at h
    obtain ⟨st2, params⟩ := r2
    have hst2 : st2 = st :=
      (exec_params_simple_frame rng hadamardM phase_shiftM qftM l hl st
        (st2, params) hps).1
    dsimp only at h
    rw [apply_builtin.eq_def] at h
    simp only [reduceIte, String.reduceEq] at h
    cases h
    rw [hst2]

theorem exec_parser_arg_frame (a : ASTNode) (ha : parserArgB a = true)
    (st : EState) (r : EState × Except RTError (Option (String × LiteralValue)))
    (h : execute_ast_node rng hadamardM phase_shiftM qftM a st = some r) :
    r.1 = st := by
  match a, ha with
  | .Literal v, _ =>
    exact (exec_simple_frame rng hadamardM phase_shiftM qftM (.Literal v) rfl
      st r h).1
  | .Identifier x, _ =>
    exact (exec_simple_frame rng hadamardM phase_shiftM qftM (.Identifier x) rfl
      st r h).1
  | .FunctionApplication f l, ha =>
    have hsplit : f = "VECTOR" ∧ l.all simpleArgB = true := by
      simpa [parserArgB] using ha
    rw [exec_vector_arg rng hadamardM phase_shiftM qftM f l hsplit.1 hsplit.2
      st r h]

theorem exec_parser_arg_ok (a : ASTNode) (ha : parserArgB a = true)
    (st st' : EState) (o : Option (String × LiteralValue))
    (h : execute_ast_node rng hadamardM phase_shiftM qftM a st =
      some (st', .ok o)) :
    ∃ pr, o = some pr := by
  match a, ha with
  | .Literal v, _ =>
    obtain ⟨_, pr, hpr⟩ := exec_simple_frame rng hadamardM phase_shiftM qftM
      (.Literal v) rfl st (st', .ok o) h
    exact ⟨pr, by injection hpr⟩
  | .Identifier x, _ =>
    obtain ⟨_, pr, hpr⟩ := exec_simple_frame rng hadamardM phase_shiftM qftM
      (.Identifier x) rfl st (st', .ok o) h
    exact ⟨pr, by injection hpr⟩
  | .FunctionApplication f l, ha =>
    have hsplit : f = "VECTOR" ∧ l.all simpleArgB = true := by
      simpa [parserArgB] using ha
    have := exec_vector_arg rng hadamardM phase_shiftM qftM f l hsplit.1
      hsplit.2 st (st', .ok o) h
    cases this

theorem exec_params_parser_frame (ps : List ASTNode)
    (hps : ps.all parserArgB = true) (st : EState)
    (r : EState × List (String × LiteralValue))
    (h : exec_params rng hadamardM phase_shiftM qftM ps st = some r) :
    r.1 = st ∧ r.2.length = ps.length := by
  induction ps generalizing st r with
  | nil =>
    rw [exec_params] at h
    cases h
    exact ⟨rfl, rfl⟩
  | cons p rest ih =>
    rw [List.all_cons, Bool.and_eq_true] at hps
    rw [exec_params] at h
    cases hp : execute_ast_node rng hadamardM phase_shiftM qftM p st with
    | none => rw [hp] at h; cases h
    | some r1 =>
      have hst1 : r1.1 = st :=
        exec_parser_arg_frame rng hadamardM phase_shiftM qftM p hps.1 st r1 hp
      rw [hp] at h
      obtain ⟨st1, e1⟩ := r1
      cases e1 with
      | error e => cases h
      | ok o =>
        obtain ⟨pr, rfl⟩ := exec_parser_arg_ok rng hadamardM phase_shiftM qftM
          p hps.1 st st1 o hp
        dsimp only at h
        cases ho : exec_params rng hadamardM phase_shiftM qftM rest st1 with
        | none => rw [ho] at h; cases h
        | some r2 =>
          rw [ho] at h
          obtain ⟨hst2, hlen⟩ := ih hps.2 st1 r2 ho
          obtain ⟨st2, l2⟩ := r2
          cases h
          simp only at hst1 hst2 hlen
          exact ⟨hst2.trans hst1, by simp [hlen]⟩

theorem unwrap_selection_ok (lv : LiteralValue) (k : String)
    (l : MemoryLocation) (a b : ℤ)
    (h : unwrap_selection lv = .ok (k, l, a, b)) :
    lv = .Selection k l a b := by
  cases lv with
  | Selection k' l' a' b' =>
    simp only [unwrap_selection, Except.ok.injEq, Prod.mk.injEq] at h
    obtain ⟨h1, h2, h3, h4⟩ := h
    rw [h1, h2, h3, h4]
  | Matrix m => cases h
  | Int i => cases h
  | Measurement m o => cases h

theorem apply_builtin_frame (f : String)
    (params : List (String × LiteralValue)) (st st' : EState)
    (e : Except RTError (Option (String × LiteralValue)))
    (h : apply_builtin rng f params st = some (st', e)) :
    st'.meas = st.meas ∧
    (st'.heap = st.heap ∨
      (f = "MEASURE" ∧ ∃ p0 key loc1 a1 b1 R, params = [p0] ∧
        p0.2 = LiteralValue.Selection key loc1 a1 b1 ∧
        st'.heap = fun k' =>
          if k' = key then some (LiteralValue.Matrix R) else st.heap k')) := by
  by_cases hM : f = "MEASURE"
  · subst hM
    rw [apply_builtin.eq_def] at h
    simp only [String.reduceEq, reduceIte] at h
    cases params with
    | nil => cases h
    | cons p0 ps =>
      cases ps with
      | cons p1 ps' => cases h
      | nil =>
        dsimp only at h
        cases hum : unwrap_matrix p0.2 with
        | ok v =>
          rw [hum] at h
          by_cases hv : v.is_vector = true
          · simp only [hv, not_true_eq_false, if_false] at h
            cases hmv : measure_vec v (rng st.rix) with
            | none => rw [hmv] at h; cases h
            | some bits =>
              rw [hmv] at h
              cases h
              exact ⟨rfl, Or.inl rfl⟩
          · simp only [Bool.not_eq_true] at hv
            simp only [hv, Bool.false_eq_true, not_false_eq_true, if_true] at h
            cases h
            exact ⟨rfl, Or.inl rfl⟩
        | error e1 =>
          rw [hum] at h
          dsimp only at h
          cases hus : unwrap_selection p0.2 with
          | error _ => rw [hus] at h; cases h
          | ok tup =>
            obtain ⟨key, loc1, a1, b1⟩ := tup
            rw [hus] at h
            dsimp only at h
            cases hhk : st.heap key with
            | none => rw [hhk] at h; cases h
            | some lv2 =>
              rw [hhk] at h
              dsimp only at h
              cases hum2 : unwrap_matrix lv2 with
              | error _ => rw [hum2] at h; cases h
              | ok v =>
                rw [hum2] at h
                dsimp only at h
                by_cases hv : v.is_vector = true
                · simp only [hv, not_true_eq_false, if_false] at h
                  cases hmp : measure_partial_vec v a1 b1 (rng st.rix) with
                  | none => rw [hmp] at h; cases h
                  | some res =>
                    rw [hmp] at h
                    dsimp only [insertHeap] at h
                    cases hmv : measure_vec res (rng (st.rix + 1)) with
                    | none => rw [hmv] at h; cases h
                    | some bits =>
                      rw [hmv] at h
                      cases h
                      exact ⟨rfl, Or.inr ⟨rfl, p0, key, loc1, a1, b1, res,
                        rfl, unwrap_selection_ok _ _ _ _ _ hus, rfl⟩⟩
                · simp only [Bool.not_eq_true] at hv
                  simp only [hv, Bool.false_eq_true, not_false_eq_true,
                    if_true] at h
                  cases h
                  exact ⟨rfl, Or.inl rfl⟩
  · rw [apply_builtin.eq_def] at h
    split_ifs at h
    all_goals (repeat (first | (split at h) | (split_ifs at h)))
    all_goals try (split at h)
    all_goals try (cases h)
    all_goals try (simp only [Option.some.injEq, Prod.mk.injEq] at h)
    all_goals try (obtain ⟨rfl, rfl⟩ := h)
    all_goals exact ⟨rfl, Or.inl rfl⟩

theorem measuredSrc_of_selection (args : List ASTNode)
    (hargs : args.all parserArgB = true) (st : EState)
    (p0 : String × LiteralValue) (key : String) (loc1 : MemoryLocation)
    (a1 b1 : ℤ)
    (hep : exec_params rng hadamardM phase_shiftM qftM args st = some (st, [p0]))
    (hp02 : p0.2 = LiteralValue.Selection key loc1 a1 b1) :
    measuredSrc "MEASURE" args st.heap = some key := by
  cases args with
  | nil => rw [exec_params] at hep; simp at hep
  | cons a rest =>
    rw [List.all_cons, Bool.and_eq_true] at hargs
    rw [exec_params] at hep
    cases ha : execute_ast_node rng hadamardM phase_shiftM qftM a st with
    | none => rw [ha] at hep; cases hep
    | some r1 =>
      rw [ha] at hep
      obtain ⟨st1, e1⟩ := r1
      cases e1 with
      | error _ => cases hep
      | ok o =>
        obtain ⟨pr, rfl⟩ := exec_parser_arg_ok rng hadamardM phase_shiftM qftM
          a hargs.1 st st1 o ha
        dsimp only at hep
        cases hrest : exec_params rng hadamardM phase_shiftM qftM rest st1 with
        | none => rw [hrest] at hep; cases hep
        | some r2 =>
          rw [hrest] at hep
          obtain ⟨st2, l2⟩ := r2
          have hlen : l2.length = rest.length :=
            (exec_params_parser_frame rng hadamardM phase_shiftM qftM rest
              hargs.2 st1 (st2, l2) hrest).2
          simp only [Option.some.injEq, Prod.mk.injEq, List.cons.injEq] at hep
          obtain ⟨hst2, hpr, hl2⟩ := hep
          have hrest_nil : rest = [] := by
            rw [← List.length_eq_zero, ← hlen, hl2]
            rfl
          subst hrest_nil
          subst hpr
          cases a with
          | Literal v =>
            rw [execute_ast_node] at ha
            cases hpl : parse_literal hadamardM phase_shiftM qftM v with
            | none => rw [hpl] at ha; cases ha
            | some e2 =>
              cases e2 with
              | error _ => rw [hpl] at ha; cases ha
              | ok lv =>
                rw [hpl] at ha
                cases ha
                rcases parse_literal_kinds hadamardM phase_shiftM qftM v lv hpl
                  with ⟨m, rfl⟩ | ⟨i, rfl⟩ <;> cases hp02
          | Identifier s =>
            rw [execute_ast_node] at ha
            cases hhs : st.heap s with
            | none => rw [hhs] at ha; cases ha
            | some lv =>
              rw [hhs] at ha
              cases ha
              simp only at hp02
              rw [measuredSrc]
              simp only [String.reduceEq, reduceIte, hhs, hp02]
          | VariableAssignment n l v =>
            exact absurd hargs.1 (by simp [parserArgB])
          | FunctionApplication f2 l2' =>
            have hsp : f2 = "VECTOR" ∧ l2'.all simpleArgB = true := by
              simpa [parserArgB] using hargs.1
            have h2 := exec_vector_arg rng hadamardM phase_shiftM qftM f2 l2'
              hsp.1 hsp.2 st _ ha
            simp [Prod.ext_iff] at h2

theorem exec_VA_cases (tgt : String) (loc : MemoryLocation) (f : String)
    (args : List ASTNode) (st st' : EState)
    (out : Except RTError (Option (String × LiteralValue)))
    (h : execute_ast_node rng hadamardM phase_shiftM qftM
      (.VariableAssignment tgt loc (.FunctionApplication f args)) st =
      some (st', out)) :
    ∃ stPar params stMid nm lv,
      exec_params rng hadamardM phase_shiftM qftM args st =
        some (stPar, params) ∧
      apply_builtin rng f params stPar = some (stMid, .ok (some (nm, lv))) ∧
      ((loc = .Heap ∧
          ((∃ i, lv = LiteralValue.Int i) ∨ (∃ m, lv = LiteralValue.Matrix m) ∨
            (∃ k l a b, lv = LiteralValue.Selection k l a b)) ∧
          st' = insertHeap tgt lv stMid) ∨
        (loc = .Measurement ∧ ∃ m bits, lv = LiteralValue.Measurement m bits ∧
          st' = insertMeas tgt (m, bits) stMid)) ∧
      out = .ok none := by
  rw [execute_ast_node] at h
  cases hpva : parse_var_assignment rng hadamardM phase_shiftM qftM tgt
      (.FunctionApplication f args) loc st with
  | none => rw [hpva] at h; cases h
  | some r1 =>
    rw [hpva] at h
    obtain ⟨st1, e1⟩ := r1
    cases e1 with
    | error _ => cases h
    | ok o1 =>
      cases h
      rw [parse_var_assignment] at hpva
      cases happ : execute_ast_node rng hadamardM phase_shiftM qftM
          (.FunctionApplication f args) st with
      | none => rw [happ] at hpva; cases hpva
      | some r2 =>
        rw [happ] at hpva
        obtain ⟨st2, e2⟩ := r2
        cases e2 with
        | error _ => cases hpva
        | ok o2 =>
          cases o2 with
          | none => cases hpva
          | some pr =>
            obtain ⟨nm, lv⟩ := pr
            rw [execute_ast_node, parse_func_application] at happ
            cases hep : exec_params rng hadamardM phase_shiftM qftM args st with
            | none => rw [hep] at happ; cases happ
            | some rp =>
              rw [hep] at happ
              obtain ⟨stPar, params⟩ := rp
              dsimp only at happ hpva
              cases loc with
              | Heap =>
                cases lv with
                | Int i =>
                  cases hpva
                  exact ⟨stPar, params, st2, nm, _, rfl, happ,
                    Or.inl ⟨rfl, Or.inl ⟨i, rfl⟩, rfl⟩, rfl⟩
                | Matrix m =>
                  cases hpva
                  exact ⟨stPar, params, st2, nm, _, rfl, happ,
                    Or.inl ⟨rfl, Or.inr (Or.inl ⟨m, rfl⟩), rfl⟩, rfl⟩
                | Selection k l a b =>
                  cases hpva
                  exact ⟨stPar, params, st2, nm, _, rfl, happ,
                    Or.inl ⟨rfl, Or.inr (Or.inr ⟨k, l, a, b, rfl⟩), rfl⟩, rfl⟩
                | Measurement m bits => cases hpva
              | Measurement =>
                cases lv with
                | Int i => cases hpva
                | Matrix m => cases hpva
                | Selection k l a b => cases hpva
                | Measurement m bits =>
                  cases hpva
                  exact ⟨stPar, params, st2, nm, _, rfl, happ,
                    Or.inr ⟨rfl, m, bits, rfl, rfl⟩, rfl⟩

/-- C9: executing any parser statement `tgt ← f(args)` leaves every heap
binding other than the assignment target unchanged, with the single
exception of `MEASURE` applied to a Selection, which in addition replaces
the heap binding of the selection's source (`measuredSrc`); no other
built-in mutates a previously bound heap entry.  (For a `MEASURE` statement
the target lives in the measurement region, so no heap key at all is the
target.) -/
theorem statement_heap_frame (rng : ℕ → ℚ) (hM : Mat) (pM qM : ℕ → Mat)
    (tgt : String) (loc : MemoryLocation) (f : String) (args : List ASTNode)
    (st st' : EState) (out : Except RTError (Option (String × LiteralValue)))
    (hargs : args.all parserArgB = true)
    (hex : execute_ast_node rng hM pM qM
      (.VariableAssignment tgt loc (.FunctionApplication f args)) st =
      some (st', out)) :
    ∀ k, (loc = .Heap → k ≠ tgt) → measuredSrc f args st.heap ≠ some k →
      st'.heap k = st.heap k := by
  obtain ⟨stPar, params, stMid, nm, lv, hep, hab, hcase, _⟩ :=
    exec_VA_cases rng hM pM qM tgt loc f args st st' out hex
  have hstPar : st = stPar :=
    ((exec_params_parser_frame rng hM pM qM args hargs st (stPar, params)
      hep).1).symm
  subst hstPar
  obtain ⟨hmeas, hheap⟩ := apply_builtin_frame rng f params st stMid _ hab
  intro k hk hms
  have hmid : stMid.heap k = st.heap k := by
    rcases hheap with hL | ⟨hfM, p0, key, loc1, a1, b1, R, hparams, hp02, hins⟩
    · rw [hL]
    · subst hfM
      subst hparams
      have hkey := measuredSrc_of_selection rng hM pM qM args hargs st p0 key
        loc1 a1 b1 hep hp02
      have hkne : k ≠ key := fun hkk => hms (hkk ▸ hkey)
      rw [hins]
      simp [hkne]
  rcases hcase with ⟨hloc, _, rfl⟩ | ⟨hloc, m, bits, hlv, rfl⟩
  · have hkt : k ≠ tgt := hk hloc
    simp [insertHeap, hkt, hmid]
  · simp [insertMeas, hmid]

/-- C9, witness for `statement_heap_frame`: the statement
`X ← TENSOR(G_CNOT, G_CNOT)` leaves the unrelated binding `R ↦ Int 1`
untouched. -/
theorem statement_heap_frame_witness :
    ([ASTNode.Literal "G_CNOT", ASTNode.Literal "G_CNOT"].all parserArgB =
      true) ∧
    (∃ st' out,
      execute_ast_node (fun _ => 0) cnotM (fun _ => cnotM) (fun _ => cnotM)
        (.VariableAssignment "X" .Heap (.FunctionApplication "TENSOR"
          [.Literal "G_CNOT", .Literal "G_CNOT"]))
        ⟨fun k => if k = "R" then some (.Int 1) else none,
          fun _ => none, 0⟩ =
        some (st', out) ∧
      st'.heap "R" = some (.Int 1)) := by
  refine ⟨by decide, ?_⟩
  have hex : execute_ast_node (fun _ => 0) cnotM (fun _ => cnotM)
      (fun _ => cnotM)
      (.VariableAssignment "X" .Heap (.FunctionApplication "TENSOR"
        [.Literal "G_CNOT", .Literal "G_CNOT"]))
      ⟨fun k => if k = "R" then some (.Int 1) else none,
        fun _ => none, 0⟩ =
      some (insertHeap "X" (.Matrix (cnotM.tensor cnotM))
        ⟨fun k => if k = "R" then some (.Int 1) else none,
          fun _ => none, 0⟩, .ok none) := by
    simp [execute_ast_node, parse_var_assignment, parse_func_application,
      exec_params, parse_literal, apply_builtin, unwrap_matrix, insertHeap]
  refine ⟨_, _, hex, ?_⟩
  have hfr := statement_heap_frame (fun _ => 0) cnotM (fun _ => cnotM)
    (fun _ => cnotM) "X" .Heap "TENSOR"
    [.Literal "G_CNOT", .Literal "G_CNOT"]
    ⟨fun k => if k = "R" then some (.Int 1) else none, fun _ => none, 0⟩
    _ _ (by decide) hex "R" (fun _ => by decide) (by simp [measuredSrc])
  rw [hfr]
  simp

/-- C10: starting from the empty two-region environment (first conjunct: it
holds no `Measurement` value), executing any parser statement preserves the
invariant that the heap maps names only to `Matrix`, `Int` or `Selection`
values and never to a `Measurement`; no statement removes an entry from the
heap or from the measurement map; and the measurement map changes only
through a Measurement-region assignment, at the statement's own target
name. -/
theorem environment_invariants :
    (∀ k m bits, (fun _ => none : String → Option LiteralValue) k ≠
      some (LiteralValue.Measurement m bits)) ∧
    (∀ (rng : ℕ → ℚ) (hM : Mat) (pM qM : ℕ → Mat) (tgt : String)
      (loc : MemoryLocation) (f : String) (args : List ASTNode)
      (st st' : EState) (out : Except RTError (Option (String × LiteralValue))),
      args.all parserArgB = true →
      execute_ast_node rng hM pM qM
        (.VariableAssignment tgt loc (.FunctionApplication f args)) st =
        some (st', out) →
      ((∀ k m bits, st.heap k ≠ some (.Measurement m bits)) →
        ∀ k m bits, st'.heap k ≠ some (.Measurement m bits)) ∧
      (∀ k, st.heap k ≠ none → st'.heap k ≠ none) ∧
      (∀ k, st.meas k ≠ none → st'.meas k ≠ none) ∧
      (∀ k, st'.meas k ≠ st.meas k → loc = .Measurement ∧ k = tgt)) := by
  refine ⟨fun k m bits => by simp, ?_⟩
  intro rng hM pM qM tgt loc f args st st' out hargs hex
  obtain ⟨stPar, params, stMid, nm, lv, hep, hab, hcase, _⟩ :=
    exec_VA_cases rng hM pM qM tgt loc f args st st' out hex
  have hstPar : st = stPar :=
    ((exec_params_parser_frame rng hM pM qM args hargs st (stPar, params)
      hep).1).symm
  subst hstPar
  obtain ⟨hmeas, hheap⟩ := apply_builtin_frame rng f params st stMid _ hab
  have hmidkinds : (∀ k m bits, st.heap k ≠ some (.Measurement m bits)) →
      ∀ k m bits, stMid.heap k ≠ some (.Measurement m bits) := by
    intro hkinds k m bits
    rcases hheap with hL | ⟨_, p0, key, l1, a1, b1, R, _, _, hins⟩
    · rw [hL]; exact hkinds k m bits
    · rw [hins]
      by_cases hkk : k = key
      · simp [hkk]
      · simp only [hkk, if_false]
        exact hkinds k m bits
  have hmidsome : ∀ k, st.heap k ≠ none → stMid.heap k ≠ none := by
    intro k hk
    rcases hheap with hL | ⟨_, p0, key, l1, a1, b1, R, _, _, hins⟩
    · rw [hL]; exact hk
    · rw [hins]
      by_cases hkk : k = key
      · simp [hkk]
      · simp only [hkk, if_false]
        exact hk
  rcases hcase with ⟨hloc, hkinds_lv, rfl⟩ | ⟨hloc, m0, bits0, hlv, rfl⟩
  · subst hloc
    refine ⟨?_, ?_, ?_, ?_⟩
    · intro hkinds k m bits
      simp only [insertHeap]
      by_cases hkt : k = tgt
      · simp only [hkt, if_pos rfl]
        rcases hkinds_lv with ⟨i, rfl⟩ | ⟨mm, rfl⟩ | ⟨a, b, c, d, rfl⟩ <;> simp
      · simp only [hkt, if_false]
        exact hmidkinds hkinds k m bits
    · intro k hk
      simp only [insertHeap]
      by_cases hkt : k = tgt
      · simp [hkt]
      · simp only [hkt, if_false]
        exact hmidsome k hk
    · intro k hk
      show stMid.meas k ≠ none
      rw [hmeas]
      exact hk
    · intro k hk
      exfalso
      exact hk (congrFun hmeas k)
  · subst hloc
    refine ⟨?_, ?_, ?_, ?_⟩
    · intro hkinds k m bits
      show stMid.heap k ≠ some (.Measurement m bits)
      exact hmidkinds hkinds k m bits
    · intro k hk
      show stMid.heap k ≠ none
      exact hmidsome k hk
    · intro k hk
      simp only [insertMeas]
      by_cases hkt : k = tgt
      · simp [hkt]
      · simp only [hkt, if_false]
        rw [hmeas]
        exact hk
    · intro k hk
      refine ⟨rfl, ?_⟩
      by_contra hkt
      apply hk
      simp only [insertMeas, hkt, if_false]
      exact congrFun hmeas k

/-- C10, witness for `environment_invariants` at the statement
`X ← TENSOR(G_CNOT, G_CNOT)` over the heap `R ↦ Int 1`. -/
theorem environment_invariants_witness :
    ([ASTNode.Literal "G_CNOT", ASTNode.Literal "G_CNOT"].all parserArgB =
      true) ∧
    (∃ st' out,
      execute_ast_node (fun _ => 0) cnotM (fun _ => cnotM) (fun _ => cnotM)
        (.VariableAssignment "X" .Heap (.FunctionApplication "TENSOR"
          [.Literal "G_CNOT", .Literal "G_CNOT"]))
        ⟨fun k => if k = "R" then some (.Int 1) else none,
          fun _ => none, 0⟩ =
        some (st', out) ∧
      (∀ k m bits, st'.heap k ≠ some (.Measurement m bits)) ∧
      st'.heap "R" ≠ none) := by
  refine ⟨by decide, ?_⟩
  have hex : execute_ast_node (fun _ => 0) cnotM (fun _ => cnotM)
      (fun _ => cnotM)
      (.VariableAssignment "X" .Heap (.FunctionApplication "TENSOR"
        [.Literal "G_CNOT", .Literal "G_CNOT"]))
      ⟨fun k => if k = "R" then some (.Int 1) else none,
        fun _ => none, 0⟩ =
      some (insertHeap "X" (.Matrix (cnotM.tensor cnotM))
        ⟨fun k => if k = "R" then some (.Int 1) else none,
          fun _ => none, 0⟩, .ok none) := by
    simp [execute_ast_node, parse_var_assignment, parse_func_application,
      exec_params, parse_literal, apply_builtin, unwrap_matrix, insertHeap]
  have hinv := environment_invariants
  have h2 := hinv.2 (fun _ => 0) cnotM (fun _ => cnotM) (fun _ => cnotM)
    "X" .Heap "TENSOR" [.Literal "G_CNOT", .Literal "G_CNOT"]
    ⟨fun k => if k = "R" then some (.Int 1) else none, fun _ => none, 0⟩
    _ _ (by decide) hex
  refine ⟨_, _, hex, h2.1 ?_, h2.2.1 "R" ?_⟩
  · intro k m bits
    dsimp only
    by_cases hkr : k = "R" <;> simp [hkr]
  · simp

/-- C1, amended.  Executing `MEASURE` on an argument bound to a Selection
`(src, Heap, from, to)` whose source holds a `2^q`-row qubit vector runs
`measure_partial_vec`, replaces the heap binding of `src` with the collapsed
vector, and records in the measurement region the pair
`(collapsed, measure_vec(collapsed))` — the bitstring is a fresh
`measure_vec` outcome over the *full* collapsed register, MSB first, of
length `q` (the qubit length of the whole vector), *not* the slice outcome
of length `to - from`. -/
theorem measure_selection_spec (rng : ℕ → ℚ) (hM : Mat) (pM qM : ℕ → Mat)
    (tgt sel src : String) (f t q : ℕ) (v : Mat) (st : EState)
    (hsel : st.heap sel = some (.Selection src .Heap (f : ℤ) (t : ℤ)))
    (hsrc : st.heap src = some (.Matrix v))
    (hr : v.rows = 2 ^ q) (hc : v.cols = 1) (hft : f ≤ t) (htq : t ≤ q) :
    ∃ R bits st',
      measure_partial_vec v (f : ℤ) (t : ℤ) (rng st.rix) = some R ∧
      measure_vec R (rng (st.rix + 1)) = some bits ∧
      execute_ast_node rng hM pM qM
        (.VariableAssignment tgt .Measurement
          (.FunctionApplication "MEASURE" [.Identifier sel])) st =
        some (st', .ok none) ∧
      st'.heap src = some (.Matrix R) ∧
      st'.meas tgt = some (R, bits) ∧
      R.rows = v.rows ∧ R.cols = v.cols ∧
      bits.length = q := by
  refine ⟨collapsedAt v q f t (rng st.rix),
    vecOutcome (collapsedAt v q f t (rng st.rix)) q (rng (st.rix + 1)), _,
    measure_partial_vec_eq v q f t (rng st.rix) hr hc hft htq,
    measure_vec_eq _ q _ (by simpa [collapsedAt] using hr)
      (by simpa [collapsedAt] using hc),
    exec_measure_selection rng hM pM qM tgt sel src f t q v st hsel hsrc hr hc
      hft htq, ?_, ?_, rfl, rfl, index_to_binary_string_length _ _⟩
  · simp [insertMeas, insertHeap]
  · simp [insertMeas]

/-- C1, witness for `measure_selection_spec`: the heap binds `R` to the
vector `|00⟩` and `S` to the Selection `(R, Heap, 0, 1)`; the statement is
`MEASURE S RES`. -/
theorem measure_selection_spec_witness :
    ((fun k => if k = "R" then
        some (LiteralValue.Matrix ⟨4, 1, fun i _ => if i = 0 then 1 else 0⟩)
      else if k = "S" then
        some (LiteralValue.Selection "R" .Heap ((0 : ℕ) : ℤ) ((1 : ℕ) : ℤ))
      else none : String → Option LiteralValue) "S" =
        some (.Selection "R" .Heap ((0 : ℕ) : ℤ) ((1 : ℕ) : ℤ)) ∧
      (4 : ℕ) = 2 ^ 2 ∧ (0 : ℕ) ≤ 1 ∧ (1 : ℕ) ≤ 2) ∧
    (∃ R bits st',
      measure_partial_vec ⟨4, 1, fun i _ => if i = 0 then 1 else 0⟩
        ((0 : ℕ) : ℤ) ((1 : ℕ) : ℤ) ((fun _ => 0 : ℕ → ℚ) 0) = some R ∧
      measure_vec R ((fun _ => 0 : ℕ → ℚ) (0 + 1)) = some bits ∧
      execute_ast_node (fun _ => 0) cnotM (fun _ => cnotM) (fun _ => cnotM)
        (.VariableAssignment "RES" .Measurement
          (.FunctionApplication "MEASURE" [.Identifier "S"]))
        ⟨fun k => if k = "R" then
            some (.Matrix ⟨4, 1, fun i _ => if i = 0 then 1 else 0⟩)
          else if k = "S" then
            some (.Selection "R" .Heap ((0 : ℕ) : ℤ) ((1 : ℕ) : ℤ))
          else none, fun _ => none, 0⟩ =
        some (st', .ok none) ∧
      st'.heap "R" = some (.Matrix R) ∧
      st'.meas "RES" = some (R, bits) ∧
      R.rows = (⟨4, 1, fun i _ => if i = 0 then 1 else 0⟩ : Mat).rows ∧
      R.cols = (⟨4, 1, fun i _ => if i = 0 then 1 else 0⟩ : Mat).cols ∧
      bits.length = 2) :=
  ⟨⟨rfl, by decide, by decide, by decide⟩,
    measure_selection_spec (fun _ => 0) cnotM (fun _ => cnotM) (fun _ => cnotM)
      "RES" "S" "R" 0 1 2 ⟨4, 1, fun i _ => if i = 0 then 1 else 0⟩
      ⟨fun k => if k = "R" then
          some (.Matrix ⟨4, 1, fun i _ => if i = 0 then 1 else 0⟩)
        else if k = "S" then
          some (.Selection "R" .Heap ((0 : ℕ) : ℤ) ((1 : ℕ) : ℤ))
        else none, fun _ => none, 0⟩
      rfl rfl rfl rfl (by decide) (by decide)⟩

/-- C1, counterexample.  On the heap `R ↦ |00⟩` (a 2-qubit vector),
`S ↦ Selection (R, Heap, 0, 1)`, the claim says `MEASURE S RES` records a
bitstring of length `to - from = 1` (the slice outcome); the source records
`measure_vec` of the full collapsed register, a bitstring of length `2`. -/
theorem measure_selection_claim_false_on_length :
    ∃ st' out,
      execute_ast_node (fun _ => 0) cnotM (fun _ => cnotM) (fun _ => cnotM)
        (.VariableAssignment "RES" .Measurement
          (.FunctionApplication "MEASURE" [.Identifier "S"]))
        ⟨fun k => if k = "R" then
            some (.Matrix ⟨4, 1, fun i _ => if i = 0 then 1 else 0⟩)
          else if k = "S" then
            some (.Selection "R" .Heap ((0 : ℕ) : ℤ) ((1 : ℕ) : ℤ))
          else none, fun _ => none, 0⟩ =
        some (st', out) ∧
      (∃ pr, st'.meas "RES" = some pr ∧ pr.2.length = 2) ∧
      ¬ (2 = 1 - 0) := by
  refine ⟨_, _,
    exec_measure_selection (fun _ => 0) cnotM (fun _ => cnotM) (fun _ => cnotM)
      "RES" "S" "R" 0 1 2 ⟨4, 1, fun i _ => if i = 0 then 1 else 0⟩
      ⟨fun k => if k = "R" then
          some (.Matrix ⟨4, 1, fun i _ => if i = 0 then 1 else 0⟩)
        else if k = "S" then
          some (.Selection "R" .Heap ((0 : ℕ) : ℤ) ((1 : ℕ) : ℤ))
        else none, fun _ => none, 0⟩
      rfl rfl rfl rfl (by decide) (by decide),
    ⟨_, rfl, by simp [vecOutcome, index_to_binary_string_length]⟩, by decide⟩

/-- C3, counterexample.  The claim says a runtime misuse makes
`run`/`execute_script` return an error value of kind `SyntaxError`/
`NotImplemented`.  For the program `MEASURE R RES` with `R` unbound, the
argument evaluation hits `parse_identifier(..).unwrap()` on
`Err(SyntaxError("Variable not found"))`: the run aborts by panicking
(`none`), and no error value — and no measurement table — is returned. -/
theorem execute_script_panics_on_unbound_measure :
    execute_script (fun _ => 0) cnotM (fun _ => cnotM) (fun _ => cnotM)
      [.VariableAssignment "RES" .Measurement
        (.FunctionApplication "MEASURE" [.Identifier "R"])] = none := by
  have hid : execute_ast_node (fun _ => 0) cnotM (fun _ => cnotM)
      (fun _ => cnotM) (.Identifier "R")
      ⟨fun _ => none, fun _ => none, 0⟩ = none := by
    rw [execute_ast_node.eq_def]
  have hps : exec_params (fun _ => 0) cnotM (fun _ => cnotM) (fun _ => cnotM)
      [.Identifier "R"] ⟨fun _ => none, fun _ => none, 0⟩ = none := by
    rw [exec_params.eq_def]
    dsimp only
    rw [hid]
  have hfa : parse_func_application (fun _ => 0) cnotM (fun _ => cnotM)
      (fun _ => cnotM) "MEASURE" [.Identifier "R"]
      ⟨fun _ => none, fun _ => none, 0⟩ = none := by
    rw [parse_func_application.eq_def, hps]
  have hex : execute_ast_node (fun _ => 0) cnotM (fun _ => cnotM)
      (fun _ => cnotM) (.FunctionApplication "MEASURE" [.Identifier "R"])
      ⟨fun _ => none, fun _ => none, 0⟩ = none := by
    rw [execute_ast_node.eq_def]
    dsimp only
    exact hfa
  have hva : parse_var_assignment (fun _ => 0) cnotM (fun _ => cnotM)
      (fun _ => cnotM) "RES" (.FunctionApplication "MEASURE" [.Identifier "R"])
      .Measurement ⟨fun _ => none, fun _ => none, 0⟩ = none := by
    rw [parse_var_assignment.eq_def, hex]
  have hnode : execute_ast_node (fun _ => 0) cnotM (fun _ => cnotM)
      (fun _ => cnotM)
      (.VariableAssignment "RES" .Measurement
        (.FunctionApplication "MEASURE" [.Identifier "R"]))
      ⟨fun _ => none, fun _ => none, 0⟩ = none := by
    rw [execute_ast_node.eq_def]
    dsimp only
    rw [hva]
  have hnodes : exec_nodes (fun _ => 0) cnotM (fun _ => cnotM) (fun _ => cnotM)
      [.VariableAssignment "RES" .Measurement
        (.FunctionApplication "MEASURE" [.Identifier "R"])]
      ⟨fun _ => none, fun _ => none, 0⟩ = none := by
    rw [exec_nodes, hnode]
  rw [execute_script, hnodes]

/-- C3, amended.  `execute_script` never returns a `RunTimeError` value:
every runtime error raised while executing a statement is immediately
`.unwrap()`ed (a panic, which aborts the run without returning a partial
measurement table), so each run either panics or returns `Ok` with the full
measurement table. -/
theorem execute_script_never_returns_error (rng : ℕ → ℚ) (hM : Mat)
    (pM qM : ℕ → Mat) (ast : List ASTNode) :
    execute_script rng hM pM qM ast = none ∨
    ∃ t, execute_script rng hM pM qM ast = some (.ok t) := by
  rw [execute_script]
  cases exec_nodes rng hM pM qM ast ⟨fun _ => none, fun _ => none, 0⟩ with
  | none => exact Or.inl rfl
  | some st => exact Or.inr ⟨st.meas, rfl⟩

end Executor

end QSimRust
